import Mathlib

/-!
# EFR32 logging pipeline and entropy source (openweave-core, EFR32 adaptation)

A shallow embedding of `src/adaptations/device-layer/EFR32/Logging.cpp` and
`src/adaptations/device-layer/EFR32/Entropy.cpp`.

Build configuration embedded here: `EFR32_LOG_ENABLED`, `RTT_LOGGING_ENABLED`,
`_WEAVE_USE_LOGGING`, `WEAVE_DEVICE_CONFIG_ENABLE_THREAD` and
`HARD_FAULT_LOG_ENABLE` are on, `COLOR_LOGS` is off, and the three timeout
macros keep their default values.

C strings are lists of `Char` (one per byte); a `char[N]` array is a list of
length `N`. A store outside the array is undefined behaviour and is reported
as `none`.
-/

namespace EFR32

/-! ## C strings and bounded stores -/

/-- The string terminator `'\0'`. -/
def NUL : Char := Char.ofNat 0

/-- The text of the C string starting at the beginning of `buf`: the bytes
before the first `NUL`. -/
def cstr (buf : List Char) : List Char :=
  buf.takeWhile (fun c => c != NUL)

/-- Model of `strlen`. -/
def strlen (buf : List Char) : Nat :=
  (cstr buf).length

/-- Store `bytes` at `buf + off`; `none` when the store leaves the array. -/
def poke (buf : List Char) (off : Nat) (bytes : List Char) : Option (List Char) :=
  if off + bytes.length ≤ buf.length then
    some (buf.take off ++ bytes ++ buf.drop (off + bytes.length))
  else
    none

/-- Model of `strcpy(buf, s)`: the text and its terminator are stored at offset 0. -/
def strcpy (buf : List Char) (s : List Char) : Option (List Char) :=
  poke buf 0 (s ++ [NUL])

/-- Model of `buf[i] = c`. -/
def setByte (buf : List Char) (i : Nat) (c : Char) : Option (List Char) :=
  poke buf i [c]

/-- Model of `vsnprintf(buf + off, size, fmt, v)` where `m` is the fully
formatted text: at most `size - 1` bytes of `m` and a terminator are stored,
nothing at all when `size = 0`. The C return value is `m.length`. -/
def vsnprintf (buf : List Char) (off size : Nat) (m : List Char) : Option (List Char) :=
  if size = 0 then some buf else poke buf off (m.take (size - 1) ++ [NUL])

/-- An uninitialised local `char[n]`: its bytes are whatever the stack holds. -/
def stackArray (n : Nat) (junk : Nat → Char) : List Char :=
  List.ofFn (fun i : Fin n => junk i.val)

/-! ## Constants of Logging.cpp -/

def LOG_ERROR : List Char := "<error > ".toList
def LOG_WARN : List Char := "<warn  > ".toList
def LOG_INFO : List Char := "<info  > ".toList
def LOG_DETAIL : List Char := "<detail> ".toList
def LOG_LWIP : List Char := "<lwip  > ".toList
def LOG_EFR32 : List Char := "<efr32 > ".toList

/-- The line terminator written after every record. -/
def newline : List Char := "\r\n".toList

/-- FreeRTOS `portMAX_DELAY` for a 32-bit `TickType_t`. -/
def portMAX_DELAY : Nat := 0xFFFFFFFF

def LOG_ERROR_TIMEOUT : Nat := portMAX_DELAY
def LOG_EFR32_TIMEOUT : Nat := portMAX_DELAY
def LOG_TIMEOUT : Nat := 0

/-- Build-time parameters and the collaborators whose definitions live outside
Logging.cpp: the item size and queue length macros, the Weave category and
module constants, the category filter and the generic module-name resolver.
The case labels of the `switch` in `Log` are distinct constants. -/
structure Config where
  LOG_ITEM_SZ : Nat
  LOG_QUEUE_LEN : Nat
  nlWeaveLoggingModuleNameLen : Nat
  kLogCategory_Error : Nat
  kLogCategory_Progress : Nat
  kLogCategory_Detail : Nat
  kLogCategory_Retain : Nat
  kLogModule_DeviceLayer : Nat
  IsCategoryEnabled : Nat → Bool
  moduleName : Nat → List Char
  labels_distinct :
    [kLogCategory_Error, kLogCategory_Progress, kLogCategory_Retain, kLogCategory_Detail].Nodup

/-! ## Process-wide state -/

/-- Result of `xTaskGetSchedulerState()`. -/
inductive SchedulerState where
  | taskSCHEDULER_SUSPENDED
  | taskSCHEDULER_NOT_STARTED
  | taskSCHEDULER_RUNNING
  deriving DecidableEq, Repr

/-- The file-scope variables of Logging.cpp, the bytes handed to
`SEGGER_RTT_WriteNoLock(0, ..)` so far (`rtt`), and the number of
`OnLogOutput` invocations so far (`hookCalls`). `sLogQueueHandle = none` is
the NULL handle; otherwise it holds the queued items, oldest first. -/
structure LogState where
  sLogInitialized : Bool
  sMsgBuffer : List Char
  sLogQueueHandle : Option (List (List Char))
  sLogSpoolerTaskHandle : Bool
  sHardFault : Bool
  rtt : List Char
  hookCalls : Nat
  deriving DecidableEq, Repr

/-- State after static initialisation. -/
def LogState.boot (cfg : Config) : LogState where
  sLogInitialized := false
  sMsgBuffer := List.replicate cfg.LOG_ITEM_SZ NUL
  sLogQueueHandle := none
  sLogSpoolerTaskHandle := false
  sHardFault := false
  rtt := []
  hookCalls := 0

/-- A caller suspended inside `xQueueSend`: the item it is sending, the ticks
it may still wait, and whether the emitter it belongs to calls `OnLogOutput`
once `PrintLog` returns. -/
structure Pending where
  item : List Char
  ticks : Nat
  hook : Bool
  deriving DecidableEq, Repr

/-- How a call ends: it returns, or its task is suspended inside `xQueueSend`,
or its behaviour is undefined (store outside an array, NULL queue handle). -/
inductive Outcome where
  | returned (st : LogState)
  | blocked (st : LogState) (p : Pending)
  | undefined
  deriving DecidableEq, Repr

/-! ## The RTOS queue and the RTT sink -/

/-- Result of one `xQueueSend` attempt. -/
inductive SendResult where
  | pdTRUE (q : List (List Char))
  | errQUEUE_FULL
  | suspended
  deriving DecidableEq, Repr

/-- Modelled from the spec: the FreeRTOS primitive `xQueueSend`, which is not
part of the sources. Section 4.1: a queue of `len` slots with FIFO admission;
an enqueue is accepted when a slot is free; with `timeout = 0` a full queue is
reported at once; with a non-zero timeout the caller is suspended. -/
def xQueueSend (len : Nat) (q : List (List Char)) (item : List Char) (ticks : Nat) :
    SendResult :=
  if q.length < len then .pdTRUE (q ++ [item])
  else if ticks = 0 then .errQUEUE_FULL
  else .suspended

/-- Model of `SEGGER_RTT_WriteNoLock(0, bytes, sz)`: the transport receives the bytes. -/
def SEGGER_RTT_WriteNoLock (st : LogState) (bytes : List Char) : LogState :=
  { st with rtt := st.rtt ++ bytes }

/-- The weak default `OnLogOutput`; the model counts its invocations. -/
def OnLogOutput (st : LogState) : LogState :=
  { st with hookCalls := st.hookCalls + 1 }

/-! ## Logging.cpp -/

/-- Source: `PrintLog(msg, timeout)`. The queue copies `LOG_ITEM_SZ` bytes
starting at `msg`. -/
def PrintLog (cfg : Config) (st : LogState) (sched : SchedulerState)
    (msg : List Char) (timeout : Nat) : Outcome :=
  if st.sLogInitialized then
    if st.sHardFault == false && sched == .taskSCHEDULER_RUNNING then
      match st.sLogQueueHandle with
      | none => .undefined
      | some q =>
        match xQueueSend cfg.LOG_QUEUE_LEN q (msg.take cfg.LOG_ITEM_SZ) timeout with
        | .pdTRUE q' => .returned { st with sLogQueueHandle := some q' }
        | .errQUEUE_FULL => .returned st
        | .suspended => .blocked st ⟨msg.take cfg.LOG_ITEM_SZ, timeout, false⟩
    else
      .returned (SEGGER_RTT_WriteNoLock (SEGGER_RTT_WriteNoLock st (cstr msg)) newline)
  else
    .returned st

/-- Source: one iteration of the loop of `LogSpoolerTaskMain`.
`xQueueReceive` copies the oldest item into `sMsgBuffer` (FIFO queue, spec
section 4.1); on an empty queue `xQueueReceive(.., portMAX_DELAY)` keeps the
task suspended and nothing changes; `none` is a receive on the NULL handle. -/
def LogSpoolerTaskMain (st : LogState) : Option LogState :=
  match st.sLogQueueHandle with
  | none => none
  | some [] => some st
  | some (item :: rest) =>
    let st1 := { st with sLogQueueHandle := some rest, sMsgBuffer := item }
    some (SEGGER_RTT_WriteNoLock (SEGGER_RTT_WriteNoLock st1 (cstr st1.sMsgBuffer)) newline)

/-- Source: `efr32LogInit()`. `_rttStatus` is the value returned by
`SEGGER_RTT_ConfigUpBuffer` (negative on error; the source ignores it),
`queueCreated` tells whether
`xQueueCreate` returned a handle, `taskCreated` whether `xTaskCreate`
returned `pdPASS`. -/
def efr32LogInit (st : LogState) (_rttStatus : Int) (queueCreated taskCreated : Bool) :
    LogState × Int :=
  let st1 := { st with sLogQueueHandle := if queueCreated then some [] else none }
  if st1.sLogQueueHandle = none then (st1, -1)
  else if taskCreated != true then (st1, -1)
  else ({ st1 with sLogSpoolerTaskHandle := true, sLogInitialized := true }, 0)

/-- The part shared by `efr32Log`, `LwIPLog` and `otPlatLog`: copy the tag
`tag` into a fresh `char[LOG_ITEM_SZ]`, format after it, force the last byte
to `NUL` when the text did not fit. -/
def formatAfterTag (cfg : Config) (tag m : List Char) (junk : Nat → Char) :
    Option (List Char) := do
  let formattedMsg ← strcpy (stackArray cfg.LOG_ITEM_SZ junk) tag
  let prefixLen := strlen formattedMsg
  let formattedMsg ← vsnprintf formattedMsg prefixLen (cfg.LOG_ITEM_SZ - prefixLen) m
  if m.length ≥ cfg.LOG_ITEM_SZ - prefixLen then
    setByte formattedMsg (cfg.LOG_ITEM_SZ - 1) NUL
  else
    pure formattedMsg

/-- What happens once `PrintLog` is over in an emitter that then calls
`OnLogOutput`. -/
def Outcome.thenOnLogOutput : Outcome → Outcome
  | .returned st => .returned (OnLogOutput st)
  | .blocked st p => .blocked st { p with hook := true }
  | .undefined => .undefined

/-- Source: `efr32Log(aFormat, ...)`; `m` is the formatted text. -/
def efr32Log (cfg : Config) (st : LogState) (sched : SchedulerState)
    (m : List Char) (junk : Nat → Char) : Outcome :=
  match formatAfterTag cfg LOG_EFR32 m junk with
  | none => .undefined
  | some formattedMsg => PrintLog cfg st sched formattedMsg LOG_EFR32_TIMEOUT

/-- Source: the file-local `GetModuleName(buf, module)` applied to
`formattedMsg + off`. -/
def GetModuleName (cfg : Config) (buf : List Char) (off : Nat) (module : Nat) :
    Option (List Char) :=
  if module = cfg.kLogModule_DeviceLayer then
    poke buf off ['D', 'L', NUL]
  else
    poke buf off (cfg.moduleName module ++ [NUL])

/-- The severity tag and timeout chosen by the `switch` of `Log`. -/
def Log_switch (cfg : Config) (category : Nat) : List Char × Nat :=
  if category = cfg.kLogCategory_Error then (LOG_ERROR, LOG_ERROR_TIMEOUT)
  else if category = cfg.kLogCategory_Detail then (LOG_DETAIL, LOG_TIMEOUT)
  else (LOG_INFO, LOG_TIMEOUT)

/-- Source: the body of `if (IsCategoryEnabled(category))` in `Log`, up to the
call of `PrintLog`: the composed buffer and the timeout. -/
def Log_compose (cfg : Config) (module category : Nat) (m : List Char)
    (junk : Nat → Char) : Option (List Char × Nat) := do
  let formattedMsg ← strcpy (stackArray cfg.LOG_ITEM_SZ junk) (Log_switch cfg category).1
  let timeout := (Log_switch cfg category).2
  let formattedMsgLen := strlen formattedMsg
  let formattedMsg ← setByte formattedMsg formattedMsgLen '['
  let formattedMsgLen := formattedMsgLen + 1
  let formattedMsg ← GetModuleName cfg formattedMsg formattedMsgLen module
  let formattedMsgLen := strlen formattedMsg
  let formattedMsg ← setByte formattedMsg formattedMsgLen ']'
  let formattedMsgLen := formattedMsgLen + 1
  let formattedMsg ← setByte formattedMsg formattedMsgLen ' '
  let formattedMsgLen := formattedMsgLen + 1
  let formattedMsg ← vsnprintf formattedMsg formattedMsgLen (cfg.LOG_ITEM_SZ - formattedMsgLen) m
  let formattedMsg ←
    if m.length ≥ cfg.LOG_ITEM_SZ - formattedMsgLen then
      setByte formattedMsg (cfg.LOG_ITEM_SZ - 1) NUL
    else
      pure formattedMsg
  pure (formattedMsg, timeout)

/-- Source: `nl::Weave::Logging::Log(module, category, aFormat, ...)`. -/
def Log (cfg : Config) (st : LogState) (sched : SchedulerState)
    (module category : Nat) (m : List Char) (junk : Nat → Char) : Outcome :=
  if cfg.IsCategoryEnabled category then
    match Log_compose cfg module category m junk with
    | none => .undefined
    | some (formattedMsg, timeout) =>
      (PrintLog cfg st sched formattedMsg timeout).thenOnLogOutput
  else
    .returned (OnLogOutput st)

/-- Source: `LwIPLog(aFormat, ...)`. -/
def LwIPLog (cfg : Config) (st : LogState) (sched : SchedulerState)
    (m : List Char) (junk : Nat → Char) : Outcome :=
  match formatAfterTag cfg LOG_LWIP m junk with
  | none => .undefined
  | some formattedMsg => (PrintLog cfg st sched formattedMsg LOG_TIMEOUT).thenOnLogOutput

/-- OpenThread log levels; `OT_LOG_LEVEL_NONE` stands for every value that
reaches the `default` label. -/
inductive otLogLevel where
  | OT_LOG_LEVEL_NONE
  | OT_LOG_LEVEL_CRIT
  | OT_LOG_LEVEL_WARN
  | OT_LOG_LEVEL_NOTE
  | OT_LOG_LEVEL_INFO
  | OT_LOG_LEVEL_DEBG
  deriving DecidableEq, Repr

/-- The tag and timeout chosen by the `switch` of `otPlatLog`. -/
def otPlatLog_switch : otLogLevel → List Char × Nat
  | .OT_LOG_LEVEL_CRIT => (LOG_ERROR ++ "[ot] ".toList, LOG_ERROR_TIMEOUT)
  | .OT_LOG_LEVEL_WARN => (LOG_WARN ++ "[ot] ".toList, LOG_TIMEOUT)
  | .OT_LOG_LEVEL_NOTE => (LOG_INFO ++ "[ot] ".toList, LOG_TIMEOUT)
  | .OT_LOG_LEVEL_INFO => (LOG_INFO ++ "[ot] ".toList, LOG_TIMEOUT)
  | .OT_LOG_LEVEL_DEBG => (LOG_DETAIL ++ "[ot] ".toList, LOG_TIMEOUT)
  | .OT_LOG_LEVEL_NONE => (LOG_DETAIL ++ "[ot] ".toList, LOG_TIMEOUT)

/-- Source: `otPlatLog(aLogLevel, aLogRegion, aFormat, ...)`. -/
def otPlatLog (cfg : Config) (st : LogState) (sched : SchedulerState)
    (aLogLevel : otLogLevel) (m : List Char) (junk : Nat → Char) : Outcome :=
  if st.sLogInitialized then
    match formatAfterTag cfg (otPlatLog_switch aLogLevel).1 m junk with
    | none => .undefined
    | some formattedMsg =>
      (PrintLog cfg st sched formattedMsg (otPlatLog_switch aLogLevel).2).thenOnLogOutput
  else
    .returned (OnLogOutput st)

/-- Registers read by `debugHardfault`: the SCB fault registers, the stack
pointer it is given, and the eight words of the exception frame. -/
structure FaultFrame where
  cfsr : Nat
  hfsr : Nat
  mmfar : Nat
  bfar : Nat
  sp : Nat
  r0 : Nat
  r1 : Nat
  r2 : Nat
  r3 : Nat
  r12 : Nat
  lr : Nat
  pc : Nat
  psr : Nat

/-- One lower-case hexadecimal digit. -/
def hexDigit (d : Nat) : Char :=
  if d < 10 then Char.ofNat (48 + d) else Char.ofNat (87 + d)

/-- The conversion `%08lx` of a 32-bit value. -/
def hex08 (v : Nat) : List Char :=
  (List.range 8).map (fun i => hexDigit ((v / 16 ^ (7 - i)) % 16))

/-- The fourteen texts `debugHardfault` formats, in order. -/
def debugHardfault_texts (f : FaultFrame) : List (List Char) :=
  [ LOG_ERROR ++ "HardFault:\n".toList,
    "SCB->CFSR   0x".toList ++ hex08 f.cfsr,
    "SCB->HFSR   0x".toList ++ hex08 f.hfsr,
    "SCB->MMFAR  0x".toList ++ hex08 f.mmfar,
    "SCB->BFAR   0x".toList ++ hex08 f.bfar,
    "SP          0x".toList ++ hex08 f.sp,
    "R0          0x".toList ++ hex08 f.r0 ++ "\n".toList,
    "R1          0x".toList ++ hex08 f.r1 ++ "\n".toList,
    "R2          0x".toList ++ hex08 f.r2 ++ "\n".toList,
    "R3          0x".toList ++ hex08 f.r3 ++ "\n".toList,
    "R12         0x".toList ++ hex08 f.r12 ++ "\n".toList,
    "LR          0x".toList ++ hex08 f.lr ++ "\n".toList,
    "PC          0x".toList ++ hex08 f.pc ++ "\n".toList,
    "PSR         0x".toList ++ hex08 f.psr ++ "\n".toList ]

/-- One `snprintf(buffer, sizeof buffer, ..); PrintLog(buffer, 0);` pair of
`debugHardfault`, run only when everything before it has returned. -/
def debugHardfault_line (cfg : Config) (sched : SchedulerState)
    (acc : List Char × Outcome) (text : List Char) : List Char × Outcome :=
  match acc with
  | (buffer, .returned st) =>
    match vsnprintf buffer 0 40 text with
    | none => (buffer, .undefined)
    | some buffer1 => (buffer1, PrintLog cfg st sched buffer1 0)
  | other => other

/-- Source: `debugHardfault(sp)` up to its final `while(1);`. The function
never returns; the outcome is the state in which it spins. -/
def debugHardfault (cfg : Config) (st : LogState) (sched : SchedulerState)
    (f : FaultFrame) (junk : Nat → Char) : Outcome :=
  let st1 := { st with sLogInitialized := true, sHardFault := true }
  ((debugHardfault_texts f).foldl (debugHardfault_line cfg sched)
    (stackArray 40 junk, .returned st1)).2

/-! ## Pipeline states of the spec, read off the two flags -/

/-- Pipeline state "Uninitialized". -/
abbrev Uninitialized (st : LogState) : Prop :=
  st.sLogInitialized = false ∧ st.sHardFault = false

/-- Pipeline state "Running". -/
abbrev Running (st : LogState) : Prop :=
  st.sLogInitialized = true ∧ st.sHardFault = false

/-- Pipeline state "Faulted", as `debugHardfault` sets it. -/
abbrev Faulted (st : LogState) : Prop :=
  st.sHardFault = true ∧ st.sLogInitialized = true

/-- The test `PrintLog` makes before it uses the queue. -/
abbrev takesQueuePath (st : LogState) (sched : SchedulerState) : Prop :=
  st.sLogInitialized = true ∧ st.sHardFault = false ∧ sched = .taskSCHEDULER_RUNNING

/-! ## The system: logging state, suspended senders, and events -/

/-- The logging state together with the callers currently suspended in
`xQueueSend`, in the order in which they were suspended. -/
structure Sys where
  st : LogState
  waiting : List Pending
  deriving DecidableEq, Repr

/-- What can happen to the system. `spool` is one iteration of the spooler
task, `wake i` lets the `i`-th suspended sender retry, `tick` is one RTOS tick. -/
inductive Event where
  | efr32LogInit (rttStatus : Int) (queueCreated taskCreated : Bool)
  | Log (sched : SchedulerState) (module category : Nat) (m : List Char) (junk : Nat → Char)
  | LwIPLog (sched : SchedulerState) (m : List Char) (junk : Nat → Char)
  | otPlatLog (sched : SchedulerState) (aLogLevel : otLogLevel) (m : List Char)
      (junk : Nat → Char)
  | efr32Log (sched : SchedulerState) (m : List Char) (junk : Nat → Char)
  | debugHardfault (sched : SchedulerState) (f : FaultFrame) (junk : Nat → Char)
  | spool
  | wake (i : Nat)
  | tick

/-- Record how a call ended. -/
def Sys.absorb (s : Sys) : Outcome → Option Sys
  | .returned st => some { s with st := st }
  | .blocked st p => some { st := st, waiting := s.waiting ++ [p] }
  | .undefined => none

/-- Modelled from the spec: the retry of a sender suspended in `xQueueSend`
(FreeRTOS, not part of the sources). Section 4.1: the caller stays blocked
until a slot is free; then its item is admitted at the back and the call
returns, after which the emitter runs its `OnLogOutput` call if it has one. -/
def wake (cfg : Config) (s : Sys) (i : Nat) : Sys :=
  match s.waiting.get? i, s.st.sLogQueueHandle with
  | some p, some q =>
    if q.length < cfg.LOG_QUEUE_LEN then
      let st1 := { s.st with sLogQueueHandle := some (q ++ [p.item]) }
      { st := if p.hook then OnLogOutput st1 else st1, waiting := s.waiting.eraseIdx i }
    else s
  | _, _ => s

/-- Modelled from the spec: the effect of one tick on a suspended sender
(FreeRTOS, not part of the sources). Section 4.1: an infinite timeout never
elapses; a finite one runs down, and `none` says that it has elapsed. -/
def Pending.tick (p : Pending) : Option Pending :=
  if p.ticks = portMAX_DELAY then some p
  else if p.ticks ≤ 1 then none
  else some { p with ticks := p.ticks - 1 }

/-- Modelled from the spec: one RTOS tick for all suspended senders (FreeRTOS,
not part of the sources). Section 4.1: a sender whose timeout elapses returns
without having enqueued, so its record is dropped; its emitter then goes on
to `OnLogOutput`. -/
def tick (s : Sys) : Sys :=
  let elapsed := s.waiting.filter (fun p => p.tick.isNone && p.hook)
  { st := { s.st with hookCalls := s.st.hookCalls + elapsed.length },
    waiting := s.waiting.filterMap Pending.tick }

/-- One event. `none` is undefined behaviour. -/
def step (cfg : Config) (s : Sys) : Event → Option Sys
  | .efr32LogInit r q t => some { s with st := (efr32LogInit s.st r q t).1 }
  | .Log sched module category m junk => s.absorb (Log cfg s.st sched module category m junk)
  | .LwIPLog sched m junk => s.absorb (LwIPLog cfg s.st sched m junk)
  | .otPlatLog sched lvl m junk => s.absorb (otPlatLog cfg s.st sched lvl m junk)
  | .efr32Log sched m junk => s.absorb (efr32Log cfg s.st sched m junk)
  | .debugHardfault sched f junk => s.absorb (debugHardfault cfg s.st sched f junk)
  | .spool =>
    if s.st.sLogSpoolerTaskHandle then
      (LogSpoolerTaskMain s.st).map (fun st => { s with st := st })
    else some s
  | .wake i => some (wake cfg s i)
  | .tick => some (tick s)

/-- A sequence of events. -/
def run (cfg : Config) (s : Sys) : List Event → Option Sys
  | [] => some s
  | e :: es => (step cfg s e).bind (fun s1 => run cfg s1 es)

/-! ## Entropy.cpp -/

def WEAVE_ENTROPY_GEN_FAILED : Int := 1

def UINT16_MAX : Nat := 65535

/-- Width of `size_t` on the EFR32 (32-bit ARM). -/
def SIZE_MODULUS : Nat := 2 ^ 32

/-- How a call of `GetEntropy_EFR32` ends on a finite script of poll results:
`died` is `VerifyOrDie`, `returned res polls` is a return of `res` after the
poll requests `polls` (offset into `buf` and length asked for, in order), and
`polling polls` says that the script is used up while the loop still wants
another poll. -/
inductive EntropyResult where
  | died
  | returned (res : Int) (polls : List (Nat × Nat))
  | polling (polls : List (Nat × Nat))
  deriving DecidableEq, Repr

/-- Source: the `while` loop of `GetEntropy_EFR32` and the code after it. Each
element of the script is what one call of `mbedtls_hardware_poll` yields: its
status and the value it leaves in `olen`. -/
def GetEntropy_loop (count : Nat) (entropy_len : Nat) (res : Int)
    (polls : List (Nat × Nat)) : List (Int × Nat) → EntropyResult
  | [] =>
    if entropy_len < count then .polling polls
    else .returned (if entropy_len < count then WEAVE_ENTROPY_GEN_FAILED else res) polls
  | (status, olen) :: script =>
    if entropy_len < count then
      if status ≠ 0 then
        .returned status (polls ++ [(entropy_len, count - entropy_len)])
      else
        GetEntropy_loop count ((entropy_len + olen) % SIZE_MODULUS) status
          (polls ++ [(entropy_len, count - entropy_len)]) script
    else .returned (if entropy_len < count then WEAVE_ENTROPY_GEN_FAILED else res) polls

/-- Source: `GetEntropy_EFR32(buf, count)`. -/
def GetEntropy_EFR32 (count : Nat) (script : List (Int × Nat)) : EntropyResult :=
  if count ≤ UINT16_MAX then GetEntropy_loop count 0 0 [] script else .died

/-- The state carried by an outcome, when there is one. -/
def Outcome.state : Outcome → Option LogState
  | .returned st => some st
  | .blocked st _ => some st
  | .undefined => none

/-! ## Concrete inputs used to exercise the theorems -/

/-- A small configuration: 24-byte items, a queue of two slots, the four
category constants numbered 1 to 4, Error and Progress enabled, module 33
being the device layer. -/
def exCfg : Config where
  LOG_ITEM_SZ := 24
  LOG_QUEUE_LEN := 2
  nlWeaveLoggingModuleNameLen := 3
  kLogCategory_Error := 1
  kLogCategory_Progress := 2
  kLogCategory_Detail := 3
  kLogCategory_Retain := 4
  kLogModule_DeviceLayer := 33
  IsCategoryEnabled := fun c => decide (c ≤ 2)
  moduleName := fun _ => "ML".toList
  labels_distinct := by decide

/-- Stack contents used in the examples. -/
def exJunk : Nat → Char := fun _ => 'x'

/-- An exception frame used in the examples. -/
def exFrame : FaultFrame :=
  ⟨1, 2, 3, 4, 0x20001000, 6, 7, 8, 9, 10, 11, 0xdeadbeef, 13⟩

/-- The system right after static initialisation. -/
def exBoot : Sys := ⟨LogState.boot exCfg, []⟩

/-- The logging state after a successful `efr32LogInit` on the boot state. -/
def exRunning : LogState := (efr32LogInit (LogState.boot exCfg) 0 true true).1

/-- The tag the file-local `GetModuleName` stores for a module. -/
def moduleTag (cfg : Config) (module : Nat) : List Char :=
  if module = cfg.kLogModule_DeviceLayer then ['D', 'L'] else cfg.moduleName module

/-- The text `Log` sets out to compose: severity tag, bracketed module tag,
a blank, and the formatted message. -/
def Log_text (cfg : Config) (module category : Nat) (m : List Char) : List Char :=
  (Log_switch cfg category).1 ++ ['['] ++ moduleTag cfg module ++ [']', ' '] ++ m

/-- The record `Log` composes in the example configuration for an enabled
Progress message of module DeviceLayer. -/
def exRecord (m : List Char) : List Char :=
  ((Log_compose exCfg 33 2 m exJunk).map Prod.fst).getD []

/-- The running system with both queue slots taken. -/
def exFull : LogState :=
  { exRunning with sLogQueueHandle := some [exRecord "a".toList, exRecord "b".toList] }

/-! ## Vocabulary for the FIFO property -/

/-- What the spooler writes for a list of items: for each, its text up to the
NUL and then the line terminator. -/
def spoolOutput (items : List (List Char)) : List Char :=
  (items.map (fun item => cstr item ++ newline)).flatten

/-- The queued items (none behind the NULL handle). -/
def Sys.queue (s : Sys) : List (List Char) :=
  s.st.sLogQueueHandle.getD []

/-- The items an event appended to the queue: those found in the queue after
the event beyond the length the queue had before it. -/
def admitted (s s1 : Sys) : List (List Char) :=
  s1.queue.drop s.queue.length

/-- The items accepted by the queue during a sequence of events, in the order
of their acceptance. -/
def admittedBy (cfg : Config) (s : Sys) : List Event → List (List Char)
  | [] => []
  | e :: es =>
    match step cfg s e with
    | none => []
    | some s1 => admitted s s1 ++ admittedBy cfg s1 es

/-- Events of the Running phase with the scheduler running: emitter calls
made under the running scheduler, spooler iterations, retries and ticks. -/
def Event.inRunningPhase : Event → Bool
  | .Log sched _ _ _ _ => sched == .taskSCHEDULER_RUNNING
  | .LwIPLog sched _ _ => sched == .taskSCHEDULER_RUNNING
  | .otPlatLog sched _ _ _ => sched == .taskSCHEDULER_RUNNING
  | .efr32Log sched _ _ => sched == .taskSCHEDULER_RUNNING
  | .spool => true
  | .wake _ => true
  | .tick => true
  | .efr32LogInit _ _ _ => false
  | .debugHardfault _ _ _ => false

/-- Three Progress emits interleaved with two spooler iterations. -/
def exInterleaving : List Event :=
  [.Log .taskSCHEDULER_RUNNING 33 2 "a".toList exJunk, .spool,
   .Log .taskSCHEDULER_RUNNING 33 2 "b".toList exJunk,
   .Log .taskSCHEDULER_RUNNING 33 2 "c".toList exJunk, .spool]

/-- The record `efr32Log` composes for the text "x" in the example configuration. -/
def exEfr32Record : List Char :=
  (formatAfterTag exCfg LOG_EFR32 "x".toList exJunk).getD []

/-- The value of `entropy_len` before poll number `i` (counting from 0) when
the loop is entered with `entropy_len = e`: the bytes reported so far, in
`size_t` arithmetic. -/
def collectedFrom (e : Nat) (script : List (Int × Nat)) (i : Nat) : Nat :=
  (e + ((script.take i).map Prod.snd).sum) % SIZE_MODULUS

/-- The bytes the first `i` polls reported, added up. -/
def produced (script : List (Int × Nat)) (i : Nat) : Nat :=
  ((script.take i).map Prod.snd).sum

/-! ## The compile-time check of `Log` and the stores it is meant to cover -/

/-- Source: `constexpr size_t maxPrefixLen = nlWeaveLoggingModuleNameLen + 3;` in `Log`. -/
def Log_maxPrefixLen (cfg : Config) : Nat :=
  cfg.nlWeaveLoggingModuleNameLen + 3

/-- Source: `static_assert(sizeof(formattedMsg) > maxPrefixLen);` in `Log`:
whether a build with this item size is accepted. -/
def Log_static_assert (cfg : Config) : Bool :=
  decide (cfg.LOG_ITEM_SZ > Log_maxPrefixLen cfg)

/-- Source: the statements of `Log` from the `switch` up to, not including,
the `vsnprintf` call, the same stores as in `Log_compose`: the array and the
value of `formattedMsgLen` that `vsnprintf` is then given. `none` says that
one of the stores left the array. -/
def Log_compose_head (cfg : Config) (module category : Nat) (junk : Nat → Char) :
    Option (List Char × Nat) := do
  let formattedMsg ← strcpy (stackArray cfg.LOG_ITEM_SZ junk) (Log_switch cfg category).1
  let formattedMsgLen := strlen formattedMsg
  let formattedMsg ← setByte formattedMsg formattedMsgLen '['
  let formattedMsgLen := formattedMsgLen + 1
  let formattedMsg ← GetModuleName cfg formattedMsg formattedMsgLen module
  let formattedMsgLen := strlen formattedMsg
  let formattedMsg ← setByte formattedMsg formattedMsgLen ']'
  let formattedMsgLen := formattedMsgLen + 1
  let formattedMsg ← setByte formattedMsg formattedMsgLen ' '
  let formattedMsgLen := formattedMsgLen + 1
  pure (formattedMsg, formattedMsgLen)

/-- The statements of `Log` from the `vsnprintf` call to the call of
`PrintLog`, given the array and `formattedMsgLen` left by the stores before. -/
def Log_compose_tail (cfg : Config) (category : Nat) (m : List Char)
    (head : List Char × Nat) : Option (List Char × Nat) := do
  let formattedMsg ← vsnprintf head.1 head.2 (cfg.LOG_ITEM_SZ - head.2) m
  let formattedMsg ←
    if m.length ≥ cfg.LOG_ITEM_SZ - head.2 then
      setByte formattedMsg (cfg.LOG_ITEM_SZ - 1) NUL
    else
      pure formattedMsg
  pure (formattedMsg, (Log_switch cfg category).2)

/-- The example configuration with the smallest item size the compile-time
check accepts for a module-name length of 3. -/
def exTiny : Config := { exCfg with LOG_ITEM_SZ := 7 }

/-- The example configuration with an item size equal to the length of the
composed tag "<error > [DL] ". -/
def exExact : Config := { exCfg with LOG_ITEM_SZ := 14 }

/-! ## Vocabulary for the queue behind the queue branch -/

/-- An `efr32LogInit` call whose `xQueueCreate` returns NULL. -/
def Event.isQueueFailure : Event → Bool
  | .efr32LogInit _ false _ => true
  | _ => false

/-- Along a sequence of events, no `efr32LogInit` call made in the Running
state has its `xQueueCreate` fail. -/
def reinitKeepsQueue (cfg : Config) (s : Sys) : List Event → Bool
  | [] => true
  | e :: es =>
    !(e.isQueueFailure && decide (Running s.st))
      && match step cfg s e with
         | none => true
         | some s1 => reinitKeepsQueue cfg s1 es

/-- What the queue branch of `PrintLog` relies on: in the Running state
`sLogQueueHandle` is not NULL and the spooler task has been created. -/
abbrev queueReady (st : LogState) : Prop :=
  Running st → st.sLogQueueHandle.isSome = true ∧ st.sLogSpoolerTaskHandle = true

/-- A failed task creation, a Detail emit, a successful `efr32LogInit`, a
repeated `efr32LogInit` whose task creation fails, and a Progress emit. -/
def exInitHistory : List Event :=
  [.efr32LogInit 0 true false, .Log .taskSCHEDULER_RUNNING 33 3 "x".toList exJunk,
   .efr32LogInit 0 true true, .efr32LogInit 0 true false,
   .Log .taskSCHEDULER_RUNNING 33 2 "a".toList exJunk]

/-! # Theorems -/

/-! ## Basic facts about stores -/

theorem poke_length {buf bytes out : List Char} {off : Nat}
    (h : poke buf off bytes = some out) : out.length = buf.length := by
  unfold poke at h
  split at h
  · cases h
    simp only [List.length_append, List.length_take, List.length_drop]
    omega
  · cases h

theorem vsnprintf_length {buf m out : List Char} {off size : Nat}
    (h : vsnprintf buf off size m = some out) : out.length = buf.length := by
  unfold vsnprintf at h
  split at h
  · cases h; rfl
  · exact poke_length h

theorem stackArray_length (n : Nat) (junk : Nat → Char) : (stackArray n junk).length = n := by
  simp [stackArray]

/-! ## The two flags never go back -/

theorem PrintLog_flags (cfg : Config) (st : LogState) (sched : SchedulerState)
    (msg : List Char) (timeout : Nat) (st1 : LogState)
    (h : (PrintLog cfg st sched msg timeout).state = some st1) :
    st1.sHardFault = st.sHardFault ∧ st1.sLogInitialized = st.sLogInitialized := by
  unfold PrintLog at h
  split at h
  · split at h
    · split at h
      · cases h
      · split at h <;> (simp only [Outcome.state, Option.some.injEq] at h; subst h; simp)
    · simp only [Outcome.state, Option.some.injEq] at h
      subst h; simp [SEGGER_RTT_WriteNoLock]
  · simp only [Outcome.state, Option.some.injEq] at h
    subst h; simp

theorem thenOnLogOutput_flags (o : Outcome) (st st1 : LogState)
    (ho : ∀ st2, o.state = some st2 →
      st2.sHardFault = st.sHardFault ∧ st2.sLogInitialized = st.sLogInitialized)
    (h : o.thenOnLogOutput.state = some st1) :
    st1.sHardFault = st.sHardFault ∧ st1.sLogInitialized = st.sLogInitialized := by
  cases o with
  | returned st2 =>
    simp only [Outcome.thenOnLogOutput, Outcome.state, Option.some.injEq] at h
    subst h
    simpa [OnLogOutput] using ho st2 rfl
  | blocked st2 p =>
    simp only [Outcome.thenOnLogOutput, Outcome.state, Option.some.injEq] at h
    subst h
    exact ho st2 rfl
  | undefined => simp [Outcome.thenOnLogOutput, Outcome.state] at h

theorem Log_flags (cfg : Config) (st : LogState) (sched : SchedulerState)
    (module category : Nat) (m : List Char) (junk : Nat → Char) (st1 : LogState)
    (h : (Log cfg st sched module category m junk).state = some st1) :
    st1.sHardFault = st.sHardFault ∧ st1.sLogInitialized = st.sLogInitialized := by
  unfold Log at h
  split at h
  · split at h
    · simp [Outcome.state] at h
    · exact thenOnLogOutput_flags _ st st1 (fun st2 h2 => PrintLog_flags _ _ _ _ _ _ h2) h
  · simp only [Outcome.state, Option.some.injEq] at h
    subst h; simp [OnLogOutput]

theorem LwIPLog_flags (cfg : Config) (st : LogState) (sched : SchedulerState)
    (m : List Char) (junk : Nat → Char) (st1 : LogState)
    (h : (LwIPLog cfg st sched m junk).state = some st1) :
    st1.sHardFault = st.sHardFault ∧ st1.sLogInitialized = st.sLogInitialized := by
  unfold LwIPLog at h
  split at h
  · simp [Outcome.state] at h
  · exact thenOnLogOutput_flags _ st st1 (fun st2 h2 => PrintLog_flags _ _ _ _ _ _ h2) h

theorem otPlatLog_flags (cfg : Config) (st : LogState) (sched : SchedulerState)
    (lvl : otLogLevel) (m : List Char) (junk : Nat → Char) (st1 : LogState)
    (h : (otPlatLog cfg st sched lvl m junk).state = some st1) :
    st1.sHardFault = st.sHardFault ∧ st1.sLogInitialized = st.sLogInitialized := by
  unfold otPlatLog at h
  split at h
  · split at h
    · simp [Outcome.state] at h
    · exact thenOnLogOutput_flags _ st st1 (fun st2 h2 => PrintLog_flags _ _ _ _ _ _ h2) h
  · simp only [Outcome.state, Option.some.injEq] at h
    subst h; simp [OnLogOutput]

theorem efr32Log_flags (cfg : Config) (st : LogState) (sched : SchedulerState)
    (m : List Char) (junk : Nat → Char) (st1 : LogState)
    (h : (efr32Log cfg st sched m junk).state = some st1) :
    st1.sHardFault = st.sHardFault ∧ st1.sLogInitialized = st.sLogInitialized := by
  unfold efr32Log at h
  split at h
  · simp [Outcome.state] at h
  · exact PrintLog_flags _ _ _ _ _ _ h

/-- In fault mode `PrintLog` writes the text and the line terminator to the
RTT channel and touches nothing else. -/
theorem PrintLog_faulted (cfg : Config) (st : LogState) (sched : SchedulerState)
    (msg : List Char) (timeout : Nat) (h : Faulted st) :
    PrintLog cfg st sched msg timeout
      = .returned { st with rtt := st.rtt ++ cstr msg ++ newline } := by
  obtain ⟨hf, hi⟩ := h
  simp [PrintLog, hf, hi, SEGGER_RTT_WriteNoLock]

theorem debugHardfault_fold (cfg : Config) (sched : SchedulerState)
    (texts : List (List Char)) (buffer : List Char) (st : LogState)
    (hb : buffer.length = 40) (hst : Faulted st) :
    ∃ buffer1 st1, texts.foldl (debugHardfault_line cfg sched) (buffer, .returned st)
        = (buffer1, .returned st1) ∧ Faulted st1
        ∧ st1.sLogQueueHandle = st.sLogQueueHandle := by
  induction texts generalizing buffer st with
  | nil => exact ⟨buffer, st, rfl, hst, rfl⟩
  | cons text rest ih =>
    have hin : 0 + (text.take 39 ++ [NUL]).length ≤ buffer.length := by
      simp only [List.length_append, List.length_take, List.length_singleton]
      omega
    have hv : vsnprintf buffer 0 40 text
        = some (buffer.take 0 ++ (text.take 39 ++ [NUL])
            ++ buffer.drop (0 + (text.take 39 ++ [NUL]).length)) := by
      simp only [vsnprintf, poke]
      rw [if_neg (by decide), if_pos hin]
    have hlen := vsnprintf_length hv
    rw [List.foldl_cons]
    simp only [debugHardfault_line, hv]
    rw [PrintLog_faulted cfg st sched _ 0 hst]
    obtain ⟨b1, st1, h1, h2, h3⟩ := ih _ { st with rtt := st.rtt ++ cstr _ ++ newline }
      (hlen.trans hb) hst
    exact ⟨b1, st1, h1, h2, h3⟩

/-- `debugHardfault` always reaches its final loop, in fault mode, with the
queue as it found it. -/
theorem debugHardfault_enters (cfg : Config) (st : LogState) (sched : SchedulerState)
    (f : FaultFrame) (junk : Nat → Char) :
    ∃ st1, debugHardfault cfg st sched f junk = .returned st1 ∧ Faulted st1
      ∧ st1.sLogQueueHandle = st.sLogQueueHandle := by
  obtain ⟨b1, st1, h1, h2, h3⟩ := debugHardfault_fold cfg sched (debugHardfault_texts f)
    (stackArray 40 junk) { st with sLogInitialized := true, sHardFault := true }
    (stackArray_length 40 junk) ⟨rfl, rfl⟩
  exact ⟨st1, by simp only [debugHardfault, h1], h2, h3⟩

theorem LogSpoolerTaskMain_flags (st st1 : LogState) (h : LogSpoolerTaskMain st = some st1) :
    st1.sHardFault = st.sHardFault ∧ st1.sLogInitialized = st.sLogInitialized := by
  unfold LogSpoolerTaskMain at h
  split at h
  · cases h
  · cases h; simp
  · cases h; simp [SEGGER_RTT_WriteNoLock]

theorem wake_flags (cfg : Config) (s : Sys) (i : Nat) :
    (wake cfg s i).st.sHardFault = s.st.sHardFault
      ∧ (wake cfg s i).st.sLogInitialized = s.st.sLogInitialized := by
  unfold wake
  split
  · split
    · split <;> simp [OnLogOutput]
    · simp
  · simp

theorem absorb_state (s s1 : Sys) (o : Outcome) (h : s.absorb o = some s1) :
    o.state = some s1.st := by
  cases o with
  | returned st => simp only [Sys.absorb, Option.some.injEq] at h; subst h; rfl
  | blocked st p => simp only [Sys.absorb, Option.some.injEq] at h; subst h; rfl
  | undefined => simp [Sys.absorb] at h

theorem efr32LogInit_flags (st : LogState) (r : Int) (q t : Bool) :
    (efr32LogInit st r q t).1.sHardFault = st.sHardFault
      ∧ (st.sLogInitialized = true → (efr32LogInit st r q t).1.sLogInitialized = true) := by
  cases q <;> cases t <;> simp [efr32LogInit]

/-- No event leaves fault mode. -/
theorem step_Faulted (cfg : Config) (s s1 : Sys) (e : Event)
    (hf : Faulted s.st) (h : step cfg s e = some s1) : Faulted s1.st := by
  obtain ⟨h1, h2⟩ := hf
  cases e with
  | efr32LogInit r q t =>
    simp only [step, Option.some.injEq] at h
    subst h
    have := efr32LogInit_flags s.st r q t
    exact ⟨this.1.trans h1, this.2 h2⟩
  | Log sched module category m junk =>
    simp only [step] at h
    have := Log_flags _ _ _ _ _ _ _ _ (absorb_state _ _ _ h)
    exact ⟨this.1.trans h1, this.2.trans h2⟩
  | LwIPLog sched m junk =>
    simp only [step] at h
    have := LwIPLog_flags _ _ _ _ _ _ (absorb_state _ _ _ h)
    exact ⟨this.1.trans h1, this.2.trans h2⟩
  | otPlatLog sched lvl m junk =>
    simp only [step] at h
    have := otPlatLog_flags _ _ _ _ _ _ _ (absorb_state _ _ _ h)
    exact ⟨this.1.trans h1, this.2.trans h2⟩
  | efr32Log sched m junk =>
    simp only [step] at h
    have := efr32Log_flags _ _ _ _ _ _ (absorb_state _ _ _ h)
    exact ⟨this.1.trans h1, this.2.trans h2⟩
  | debugHardfault sched f junk =>
    obtain ⟨st1, e1, hF, _⟩ := debugHardfault_enters cfg s.st sched f junk
    rw [show step cfg s (.debugHardfault sched f junk)
      = s.absorb (debugHardfault cfg s.st sched f junk) from rfl, e1] at h
    simp only [Sys.absorb, Option.some.injEq] at h
    subst h
    exact hF
  | spool =>
    simp only [step] at h
    split at h
    · simp only [Option.map_eq_some'] at h
      obtain ⟨st1, e1, rfl⟩ := h
      have := LogSpoolerTaskMain_flags _ _ e1
      exact ⟨this.1.trans h1, this.2.trans h2⟩
    · cases h; exact ⟨h1, h2⟩
  | wake i =>
    simp only [step, Option.some.injEq] at h
    subst h
    have := wake_flags cfg s i
    exact ⟨this.1.trans h1, this.2.trans h2⟩
  | tick =>
    simp only [step, Option.some.injEq] at h
    subst h
    exact ⟨h1, h2⟩

theorem run_Faulted (cfg : Config) (evs : List Event) (s s1 : Sys)
    (hf : Faulted s.st) (h : run cfg s evs = some s1) : Faulted s1.st := by
  induction evs generalizing s with
  | nil => simp only [run, Option.some.injEq] at h; subst h; exact hf
  | cons e es ih =>
    simp only [run, Option.bind_eq_some] at h
    obtain ⟨s2, h2, h3⟩ := h
    exact ih s2 (step_Faulted cfg s s2 e hf h2) h3

/-! ## Claim C1 -/

/-- C1: from every state, `debugHardfault` enters fault mode (`sHardFault` and
`sLogInitialized` both true); after every later sequence of events
(`efr32LogInit`, the emitters, spooler iterations, retries, ticks) both flags
are still true, and every `PrintLog` call, whatever the scheduler state and
timeout, returns with the text of the record followed by "\r\n" appended to
the RTT channel and with the queue and every other variable unchanged. -/
theorem C1_fault_mode_is_terminal (cfg : Config) (s0 : Sys) (sched0 : SchedulerState)
    (f : FaultFrame) (junk : Nat → Char) :
    ∃ st1, debugHardfault cfg s0.st sched0 f junk = .returned st1
      ∧ st1.sHardFault = true ∧ st1.sLogInitialized = true
      ∧ ∀ (evs : List Event) (s2 : Sys), run cfg { s0 with st := st1 } evs = some s2 →
          s2.st.sHardFault = true ∧ s2.st.sLogInitialized = true
          ∧ ∀ (sched : SchedulerState) (msg : List Char) (timeout : Nat),
              PrintLog cfg s2.st sched msg timeout
                = .returned { s2.st with rtt := s2.st.rtt ++ cstr msg ++ newline } := by
  obtain ⟨st1, e1, hF, _⟩ := debugHardfault_enters cfg s0.st sched0 f junk
  refine ⟨st1, e1, hF.1, hF.2, ?_⟩
  intro evs s2 hrun
  have hF2 := run_Faulted cfg evs { s0 with st := st1 } s2 hF hrun
  exact ⟨hF2.1, hF2.2, fun sched msg timeout => PrintLog_faulted cfg s2.st sched msg timeout hF2⟩

/-- C1, exercised: the handler runs on the freshly booted system (pipeline
never initialised); the later events are a successful `efr32LogInit` and a
tick; `PrintLog` then writes straight to the RTT channel. -/
theorem C1_fault_mode_is_terminal_witness :
    ∃ st1 s2, debugHardfault exCfg exBoot.st .taskSCHEDULER_RUNNING exFrame exJunk
        = .returned st1
      ∧ run exCfg { exBoot with st := st1 } [.efr32LogInit 0 true true, .tick] = some s2
      ∧ s2.st.sHardFault = true ∧ s2.st.sLogInitialized = true
      ∧ PrintLog exCfg s2.st .taskSCHEDULER_RUNNING "hi".toList 0
          = .returned { s2.st with rtt := s2.st.rtt ++ cstr "hi".toList ++ newline } := by
  obtain ⟨st1, h1, _, _, h4⟩ :=
    C1_fault_mode_is_terminal exCfg exBoot .taskSCHEDULER_RUNNING exFrame exJunk
  have h5 := h4 [.efr32LogInit 0 true true, .tick] _ rfl
  exact ⟨st1, _, h1, rfl, h5.1, h5.2.1, h5.2.2 _ _ _⟩

/-! ## Composition of a record -/

theorem cstr_append_NUL (s rest : List Char) (hs : NUL ∉ s) : cstr (s ++ NUL :: rest) = s := by
  induction s with
  | nil => simp [cstr]
  | cons c cs ih =>
    have hc : c ≠ NUL := fun h => hs (by simp [h])
    have hcs : NUL ∉ cs := fun h => hs (by simp [h])
    have hne : (c != NUL) = true := by simpa using hc
    have := ih hcs
    simp only [cstr] at this ⊢
    rw [List.cons_append, List.takeWhile_cons, hne, if_pos rfl, this]

theorem strlen_append_NUL (s rest : List Char) (hs : NUL ∉ s) :
    strlen (s ++ NUL :: rest) = s.length := by
  simp [strlen, cstr_append_NUL s rest hs]

theorem cstr_length_le (buf : List Char) : (cstr buf).length ≤ buf.length := by
  unfold cstr
  exact (List.takeWhile_sublist _).length_le

/-- A store right after `pre` replaces the first bytes of what follows. -/
theorem poke_append (pre tail bytes : List Char) (h : bytes.length ≤ tail.length) :
    poke (pre ++ tail) pre.length bytes = some (pre ++ bytes ++ tail.drop bytes.length) := by
  unfold poke
  rw [if_pos (by simp only [List.length_append]; omega)]
  simp [List.take_append_eq_append_take, List.drop_append_eq_append_drop]

theorem GetModuleName_eq (cfg : Config) (buf : List Char) (off module : Nat) :
    GetModuleName cfg buf off module = poke buf off (moduleTag cfg module ++ [NUL]) := by
  unfold GetModuleName moduleTag
  split <;> rfl

/-- The common core of all emitters: after the stores that build `pre`
(`pre.length < buf0.length`), `vsnprintf` and the final guard leave the first
`min (pre ++ m).length (N - 1)` bytes of `pre ++ m`, then a `NUL`, then the
old bytes. -/
theorem format_tail (pre tail m : List Char) (N : Nat) (hN : (pre ++ tail).length = N)
    (ht : 0 < tail.length) :
    ((vsnprintf (pre ++ tail) pre.length (N - pre.length) m).bind fun b =>
        if m.length ≥ N - pre.length then setByte b (N - 1) NUL else pure b)
      = some ((pre ++ m).take (min (pre ++ m).length (N - 1)) ++ [NUL]
          ++ tail.drop (min m.length (tail.length - 1) + 1)) := by
  have hsz : N - pre.length = tail.length := by
    rw [← hN, List.length_append]; omega
  have hsz0 : ¬ tail.length = 0 := by omega
  rw [hsz]
  have hb : (m.take (tail.length - 1) ++ [NUL]).length ≤ tail.length := by
    simp only [List.length_append, List.length_take, List.length_singleton]; omega
  have hv : vsnprintf (pre ++ tail) pre.length tail.length m
      = some (pre ++ (m.take (tail.length - 1) ++ [NUL])
          ++ tail.drop (m.take (tail.length - 1) ++ [NUL]).length) := by
    unfold vsnprintf
    rw [if_neg hsz0]
    exact poke_append pre tail _ hb
  rw [hv, Option.some_bind]
  have hlen : (m.take (tail.length - 1) ++ [NUL]).length = min m.length (tail.length - 1) + 1 := by
    simp only [List.length_append, List.length_take, List.length_singleton]
    rw [Nat.min_comm]
  rw [hlen]
  have hN1 : N - 1 = pre.length + (tail.length - 1) := by
    rw [← hN, List.length_append]; omega
  have htake : (pre ++ m).take (min (pre ++ m).length (N - 1)) = pre ++ m.take (tail.length - 1) := by
    rw [hN1, List.take_append_eq_append_take]
    have h1 : min (pre ++ m).length (pre.length + (tail.length - 1)) - pre.length
        = min m.length (tail.length - 1) := by
      simp only [List.length_append]; omega
    have h2 : pre.length ≤ min (pre ++ m).length (pre.length + (tail.length - 1)) := by
      simp only [List.length_append]; omega
    rw [h1, List.take_of_length_le h2]
    congr 1
    rw [List.take_eq_take]
    omega
  rw [htake]
  by_cases hm : m.length ≥ tail.length
  · rw [if_pos hm]
    have hmin : min m.length (tail.length - 1) = tail.length - 1 := by omega
    have hd : tail.drop (min m.length (tail.length - 1) + 1) = [] := by
      rw [hmin]; exact List.drop_eq_nil_of_le (by omega)
    rw [hd, List.append_nil]
    have hpl : N - 1 = (pre ++ m.take (tail.length - 1)).length := by
      rw [hN1]; simp only [List.length_append, List.length_take]; omega
    have := poke_append (pre ++ m.take (tail.length - 1)) [NUL] [NUL] (le_refl _)
    rw [← List.append_assoc, setByte, hpl, this]
    simp
  · rw [if_neg hm]
    simp [List.append_assoc]

theorem Log_switch_NUL (cfg : Config) (category : Nat) : NUL ∉ (Log_switch cfg category).1 := by
  unfold Log_switch
  split
  · decide
  · split <;> decide

theorem Log_switch_length (cfg : Config) (category : Nat) :
    (Log_switch cfg category).1.length = 9 := by
  unfold Log_switch
  split
  · rfl
  · split <;> rfl

/-- The stores of `Log` up to `vsnprintf`, on an array that is large enough:
the array then starts with the severity tag, "[", the module tag and "] ". -/
theorem Log_compose_eq (cfg : Config) (module category : Nat) (m : List Char)
    (junk : Nat → Char) (hname : NUL ∉ moduleTag cfg module)
    (hN : (Log_text cfg module category []).length < cfg.LOG_ITEM_SZ) :
    ∃ rest, Log_compose cfg module category m junk
      = some ((Log_text cfg module category m).take
            (min (Log_text cfg module category m).length (cfg.LOG_ITEM_SZ - 1))
          ++ [NUL] ++ rest, (Log_switch cfg category).2)
      ∧ ((Log_text cfg module category m).take
            (min (Log_text cfg module category m).length (cfg.LOG_ITEM_SZ - 1))
          ++ [NUL] ++ rest).length = cfg.LOG_ITEM_SZ := by
  have hP := Log_switch_NUL cfg category
  generalize hPd : (Log_switch cfg category).1 = P at hP
  generalize hnd : moduleTag cfg module = name at hname
  generalize hbd : stackArray cfg.LOG_ITEM_SZ junk = buf0
  have hb0 : buf0.length = cfg.LOG_ITEM_SZ := by rw [← hbd]; exact stackArray_length _ _
  have hN1 : P.length + 1 + name.length + 2 < cfg.LOG_ITEM_SZ := by
    have := hN
    simp only [Log_text, hPd, hnd, List.length_append, List.length_cons, List.length_nil] at this
    omega
  -- strcpy
  have h1 : strcpy buf0 P = some (P ++ NUL :: buf0.drop (P.length + 1)) := by
    have := poke_append [] buf0 (P ++ [NUL]) (by simp only [List.length_append, List.length_singleton]; omega)
    simpa [strcpy] using this
  have l1 : strlen (P ++ NUL :: buf0.drop (P.length + 1)) = P.length :=
    strlen_append_NUL _ _ hP
  -- '['
  have h2 : setByte (P ++ NUL :: buf0.drop (P.length + 1)) P.length '['
      = some (P ++ '[' :: buf0.drop (P.length + 1)) := by
    have := poke_append P (NUL :: buf0.drop (P.length + 1)) ['['] (by simp)
    simpa [setByte] using this
  -- module tag
  have h3 : GetModuleName cfg (P ++ '[' :: buf0.drop (P.length + 1)) (P.length + 1) module
      = some ((P ++ '[' :: name) ++ NUL :: buf0.drop (P.length + 1 + name.length + 1)) := by
    rw [GetModuleName_eq, hnd]
    have := poke_append (P ++ ['[']) (buf0.drop (P.length + 1)) (name ++ [NUL])
      (by simp only [List.length_append, List.length_singleton, List.length_drop]; omega)
    simpa [Nat.add_assoc] using this
  have hP3 : NUL ∉ P ++ '[' :: name := by
    simp only [List.mem_append, List.mem_cons, not_or]
    exact ⟨hP, by decide, hname⟩
  have l3 : strlen ((P ++ '[' :: name) ++ NUL :: buf0.drop (P.length + 1 + name.length + 1))
      = P.length + 1 + name.length := by
    rw [strlen_append_NUL _ _ hP3]; simp; omega
  -- ']'
  have h4 : setByte ((P ++ '[' :: name) ++ NUL :: buf0.drop (P.length + 1 + name.length + 1))
      (P.length + 1 + name.length) ']'
      = some ((P ++ '[' :: name) ++ ']' :: buf0.drop (P.length + 1 + name.length + 1)) := by
    have := poke_append (P ++ '[' :: name) (NUL :: buf0.drop (P.length + 1 + name.length + 1))
      [']'] (by simp)
    have hl : (P ++ '[' :: name).length = P.length + 1 + name.length := by simp; omega
    rw [hl] at this
    simpa [setByte] using this
  -- ' '
  have h5 : setByte ((P ++ '[' :: name) ++ ']' :: buf0.drop (P.length + 1 + name.length + 1))
      (P.length + 1 + name.length + 1) ' '
      = some ((P ++ ['['] ++ name ++ [']', ' ']) ++ buf0.drop (P.length + 1 + name.length + 2)) := by
    have := poke_append (P ++ '[' :: name ++ [']']) (buf0.drop (P.length + 1 + name.length + 1))
      [' '] (by simp only [List.length_singleton, List.length_drop]; omega)
    have hl : (P ++ '[' :: name ++ [']']).length = P.length + 1 + name.length + 1 := by
      simp; omega
    rw [hl] at this
    simpa [setByte, Nat.add_assoc] using this
  -- vsnprintf and the final guard
  have hl5 : (P ++ ['['] ++ name ++ [']', ' ']).length = P.length + 1 + name.length + 1 + 1 := by
    simp; omega
  have htail : 0 < (buf0.drop (P.length + 1 + name.length + 2)).length := by
    rw [List.length_drop]; omega
  have hall : ((P ++ ['['] ++ name ++ [']', ' ']) ++ buf0.drop (P.length + 1 + name.length + 2)).length
      = cfg.LOG_ITEM_SZ := by
    rw [List.length_append, hl5, List.length_drop]; omega
  have h6 := format_tail (P ++ ['['] ++ name ++ [']', ' '])
    (buf0.drop (P.length + 1 + name.length + 2)) m cfg.LOG_ITEM_SZ hall htail
  rw [hl5, Option.bind_eq_some] at h6
  obtain ⟨b6, hv, hg⟩ := h6
  refine ⟨List.drop (min m.length ((buf0.drop (P.length + 1 + name.length + 2)).length - 1) + 1)
    (buf0.drop (P.length + 1 + name.length + 2)), ?_, ?_⟩
  swap
  · simp only [Log_text, hPd, hnd, List.length_append, List.length_take, List.length_drop,
      List.length_cons, List.length_nil, hb0]
    omega
  unfold Log_compose
  simp only [bind, pure, hPd, hbd]
  rw [h1, Option.some_bind, l1, h2, Option.some_bind, h3, Option.some_bind, l3, h4,
    Option.some_bind, h5, Option.some_bind, hv, Option.some_bind]
  by_cases hc : m.length ≥ cfg.LOG_ITEM_SZ - (P.length + 1 + name.length + 1 + 1)
  · rw [if_pos hc] at hg ⊢
    rw [hg, Option.some_bind]
    simp only [Log_text, hPd, hnd]
  · rw [if_neg hc] at hg ⊢
    simp only [pure] at hg
    rw [hg, Option.some_bind]
    simp only [Log_text, hPd, hnd]

/-- The composition shared by `efr32Log`, `LwIPLog` and `otPlatLog`, on an
array that is larger than the tag. -/
theorem formatAfterTag_eq (cfg : Config) (tag m : List Char) (junk : Nat → Char)
    (htag : NUL ∉ tag) (hN : tag.length < cfg.LOG_ITEM_SZ) :
    ∃ rest, formatAfterTag cfg tag m junk
      = some ((tag ++ m).take (min (tag ++ m).length (cfg.LOG_ITEM_SZ - 1)) ++ [NUL] ++ rest)
      ∧ ((tag ++ m).take (min (tag ++ m).length (cfg.LOG_ITEM_SZ - 1)) ++ [NUL] ++ rest).length
          = cfg.LOG_ITEM_SZ := by
  generalize hbd : stackArray cfg.LOG_ITEM_SZ junk = buf0
  have hb0 : buf0.length = cfg.LOG_ITEM_SZ := by rw [← hbd]; exact stackArray_length _ _
  have h1 : strcpy buf0 tag = some (tag ++ NUL :: buf0.drop (tag.length + 1)) := by
    have := poke_append [] buf0 (tag ++ [NUL])
      (by simp only [List.length_append, List.length_singleton]; omega)
    simpa [strcpy] using this
  have l1 : strlen (tag ++ NUL :: buf0.drop (tag.length + 1)) = tag.length :=
    strlen_append_NUL _ _ htag
  have hall : (tag ++ NUL :: buf0.drop (tag.length + 1)).length = cfg.LOG_ITEM_SZ := by
    simp only [List.length_append, List.length_cons, List.length_drop]; omega
  have h6 := format_tail tag (NUL :: buf0.drop (tag.length + 1)) m cfg.LOG_ITEM_SZ hall (by simp)
  refine ⟨List.drop (min m.length ((NUL :: buf0.drop (tag.length + 1)).length - 1) + 1)
    (NUL :: buf0.drop (tag.length + 1)), ?_, ?_⟩
  swap
  · simp only [List.length_append, List.length_take, List.length_drop,
      List.length_cons, List.length_nil, hb0]
    omega
  unfold formatAfterTag
  simp only [bind, hbd]
  rw [h1, Option.some_bind, l1]
  exact h6

/-- Shape of a composed record: it is a C string shorter than the array. -/
theorem record_shape (text rest : List Char) (N : Nat) (hN : 0 < N) :
    strlen (text.take (min text.length (N - 1)) ++ [NUL] ++ rest) ≤ min text.length (N - 1)
      ∧ strlen (text.take (min text.length (N - 1)) ++ [NUL] ++ rest) < N
      ∧ (NUL ∉ text →
          cstr (text.take (min text.length (N - 1)) ++ [NUL] ++ rest)
            = text.take (min text.length (N - 1))) := by
  have hle : strlen (text.take (min text.length (N - 1)) ++ [NUL] ++ rest)
      ≤ min text.length (N - 1) := by
    unfold strlen cstr
    rw [List.append_assoc, List.takeWhile_append]
    split
    · rename_i h
      simp [List.takeWhile, NUL]
    · rename_i h
      exact (List.takeWhile_sublist _).length_le.trans (by simp)
  refine ⟨hle, by omega, ?_⟩
  intro hnul
  have : NUL ∉ text.take (min text.length (N - 1)) := fun h => hnul (List.mem_of_mem_take h)
  rw [List.append_assoc]
  exact cstr_append_NUL _ _ this

/-! ## Claim C2 -/

theorem PrintLog_uninitialized (cfg : Config) (st : LogState) (sched : SchedulerState)
    (msg : List Char) (timeout : Nat) (h : st.sLogInitialized = false) :
    PrintLog cfg st sched msg timeout = .returned st := by
  simp [PrintLog, h]

/-- The direct branch of `PrintLog`: initialised, and either faulted or the
scheduler is not running. -/
theorem PrintLog_direct (cfg : Config) (st : LogState) (sched : SchedulerState)
    (msg : List Char) (timeout : Nat) (hi : st.sLogInitialized = true)
    (hd : st.sHardFault = true ∨ sched ≠ .taskSCHEDULER_RUNNING) :
    PrintLog cfg st sched msg timeout
      = .returned { st with rtt := st.rtt ++ cstr msg ++ newline } := by
  rcases hd with hd | hd
  · simp [PrintLog, hi, hd, SEGGER_RTT_WriteNoLock]
  · simp [PrintLog, hi, hd, SEGGER_RTT_WriteNoLock]

/-- C2 fails as stated: on the freshly booted system (Uninitialized: no
`efr32LogInit`, no fault) with the scheduler not started, `Log` of an enabled
Error record and `PrintLog` return with the RTT channel still empty; the text
and line terminator the claim expects there are not written. -/
theorem C2_counterexample :
    Uninitialized (LogState.boot exCfg)
      ∧ Log exCfg (LogState.boot exCfg) .taskSCHEDULER_NOT_STARTED 33 1 "boot".toList exJunk
          = .returned { LogState.boot exCfg with hookCalls := 1 }
      ∧ PrintLog exCfg (LogState.boot exCfg) .taskSCHEDULER_NOT_STARTED
          ("<error > [DL] boot".toList ++ [NUL]) 0 = .returned (LogState.boot exCfg)
      ∧ (LogState.boot exCfg).rtt
          ≠ (LogState.boot exCfg).rtt ++ "<error > [DL] boot".toList ++ newline := by
  decide

/-- C2, amended: while `sLogInitialized` is false an emit call does not fail
and delivers nothing. `PrintLog` returns with the state unchanged (neither the
queue nor the RTT channel is used); `Log`, `LwIPLog` and `otPlatLog` return
having only run `OnLogOutput`, `efr32Log` returns with the state unchanged
(for `Log`, `LwIPLog` and `efr32Log` provided the item size exceeds the
composed tag). The direct write of text and line terminator happens when
`sLogInitialized` is true and a fault has occurred or the scheduler is not
running. -/
theorem C2_uninitialized_emit_discards (cfg : Config) (st : LogState)
    (sched : SchedulerState) :
    (st.sLogInitialized = false →
      (∀ msg timeout, PrintLog cfg st sched msg timeout = .returned st)
      ∧ (∀ module category m junk, NUL ∉ moduleTag cfg module →
          (Log_text cfg module category []).length < cfg.LOG_ITEM_SZ →
          Log cfg st sched module category m junk = .returned (OnLogOutput st))
      ∧ (∀ m junk, LOG_LWIP.length < cfg.LOG_ITEM_SZ →
          LwIPLog cfg st sched m junk = .returned (OnLogOutput st))
      ∧ (∀ lvl m junk, otPlatLog cfg st sched lvl m junk = .returned (OnLogOutput st))
      ∧ (∀ m junk, LOG_EFR32.length < cfg.LOG_ITEM_SZ →
          efr32Log cfg st sched m junk = .returned st))
    ∧ (st.sLogInitialized = true →
        (st.sHardFault = true ∨ sched ≠ .taskSCHEDULER_RUNNING) →
        ∀ msg timeout, PrintLog cfg st sched msg timeout
          = .returned { st with rtt := st.rtt ++ cstr msg ++ newline }) := by
  refine ⟨fun h => ⟨fun msg timeout => PrintLog_uninitialized cfg st sched msg timeout h,
    ?_, ?_, ?_, ?_⟩, fun hi hd msg timeout => PrintLog_direct cfg st sched msg timeout hi hd⟩
  · intro module category m junk hname hN
    obtain ⟨rest, hc, _⟩ := Log_compose_eq cfg module category m junk hname hN
    unfold Log
    split
    · rw [hc]
      simp only [PrintLog_uninitialized cfg st sched _ _ h, Outcome.thenOnLogOutput]
    · rfl
  · intro m junk hN
    obtain ⟨rest, hc, _⟩ := formatAfterTag_eq cfg LOG_LWIP m junk (by decide) hN
    unfold LwIPLog
    rw [hc]
    simp only [PrintLog_uninitialized cfg st sched _ _ h, Outcome.thenOnLogOutput]
  · intro lvl m junk
    simp [otPlatLog, h]
  · intro m junk hN
    obtain ⟨rest, hc, _⟩ := formatAfterTag_eq cfg LOG_EFR32 m junk (by decide) hN
    unfold efr32Log
    rw [hc]
    simp only [PrintLog_uninitialized cfg st sched _ _ h]

/-- C2 amended, exercised on the booted system (nothing delivered) and on the
initialised system before the scheduler starts (direct write). -/
theorem C2_uninitialized_emit_discards_witness :
    (LogState.boot exCfg).sLogInitialized = false
      ∧ PrintLog exCfg (LogState.boot exCfg) .taskSCHEDULER_NOT_STARTED "boot".toList 0
          = .returned (LogState.boot exCfg)
      ∧ exRunning.sLogInitialized = true
      ∧ PrintLog exCfg exRunning .taskSCHEDULER_NOT_STARTED "boot".toList 0
          = .returned { exRunning with rtt := exRunning.rtt ++ cstr "boot".toList ++ newline } :=
  ⟨rfl,
    ((C2_uninitialized_emit_discards exCfg (LogState.boot exCfg)
      .taskSCHEDULER_NOT_STARTED).1 rfl).1 _ _,
    rfl,
    (C2_uninitialized_emit_discards exCfg exRunning .taskSCHEDULER_NOT_STARTED).2 rfl
      (Or.inr (by decide)) _ _⟩

/-! ## The queue branch of `PrintLog` -/

theorem Log_switch_tag (cfg : Config) (category : Nat) :
    (Log_switch cfg category).1
      = if category = cfg.kLogCategory_Error then "<error > ".toList
        else if category = cfg.kLogCategory_Detail then "<detail> ".toList
        else "<info  > ".toList := by
  unfold Log_switch
  split
  · rfl
  · split <;> rfl

/-- C5: for the tag `P` chosen by category ("<error > " for Error,
"<detail> " for Detail, "<info  > " for Progress, Retain and every other
value), every module whose tag holds no NUL, every text `m` and every item
size `N` larger than the composed tag `P ++ "[" ++ tag ++ "] "`: `Log`
composes a record (and, when the category is enabled, hands exactly that
record to `PrintLog`); the record fills its `N`-byte array, begins with the
first `min L (N - 1)` bytes of `P ++ "[" ++ tag ++ "] " ++ m` followed by a
NUL, so its string length is below `N`; when `m` holds no NUL its text is
exactly that truncation. -/
theorem C5_record_is_bounded_truncation (cfg : Config) (module category : Nat)
    (m : List Char) (junk : Nat → Char)
    (hname : NUL ∉ moduleTag cfg module)
    (hN : (Log_text cfg module category []).length < cfg.LOG_ITEM_SZ) :
    Log_text cfg module category m
        = (if category = cfg.kLogCategory_Error then "<error > ".toList
           else if category = cfg.kLogCategory_Detail then "<detail> ".toList
           else "<info  > ".toList)
          ++ "[".toList ++ moduleTag cfg module ++ "] ".toList ++ m
    ∧ (category = cfg.kLogCategory_Progress ∨ category = cfg.kLogCategory_Retain →
        (Log_switch cfg category).1 = "<info  > ".toList)
    ∧ ∃ record timeout, Log_compose cfg module category m junk = some (record, timeout)
        ∧ (cfg.IsCategoryEnabled category = true → ∀ st sched,
            Log cfg st sched module category m junk
              = (PrintLog cfg st sched record timeout).thenOnLogOutput)
        ∧ record.length = cfg.LOG_ITEM_SZ
        ∧ record.take (min (Log_text cfg module category m).length (cfg.LOG_ITEM_SZ - 1) + 1)
            = (Log_text cfg module category m).take
                (min (Log_text cfg module category m).length (cfg.LOG_ITEM_SZ - 1)) ++ [NUL]
        ∧ strlen record < cfg.LOG_ITEM_SZ
        ∧ (NUL ∉ m → cstr record
            = (Log_text cfg module category m).take
                (min (Log_text cfg module category m).length (cfg.LOG_ITEM_SZ - 1))) := by
  refine ⟨?_, ?_, ?_⟩
  · simp only [Log_text, Log_switch_tag]
    rfl
  · intro h
    have hd := cfg.labels_distinct
    simp only [List.nodup_cons, List.mem_cons, List.mem_singleton, not_or, List.not_mem_nil,
      not_false_eq_true, and_true, or_false] at hd
    rw [Log_switch_tag]
    rcases h with h | h
    · rw [if_neg (by omega), if_neg (by omega)]
    · rw [if_neg (by omega), if_neg (by omega)]
  · obtain ⟨rest, hc, hl⟩ := Log_compose_eq cfg module category m junk hname hN
    have hpos : 0 < cfg.LOG_ITEM_SZ := by omega
    obtain ⟨_, hlt, hcs⟩ := record_shape (Log_text cfg module category m) rest
      cfg.LOG_ITEM_SZ hpos
    refine ⟨_, _, hc, ?_, hl, ?_, hlt, ?_⟩
    · intro hen st sched
      unfold Log
      rw [if_pos hen, hc]
    · rw [List.append_assoc, List.take_append_eq_append_take]
      have hk : ((Log_text cfg module category m).take
          (min (Log_text cfg module category m).length (cfg.LOG_ITEM_SZ - 1))).length
          = min (Log_text cfg module category m).length (cfg.LOG_ITEM_SZ - 1) := by
        rw [List.length_take]; omega
      rw [hk, List.take_of_length_le (by omega)]
      simp
    · intro hm
      apply hcs
      have hP := Log_switch_NUL cfg category
      simp only [Log_text, List.mem_append, List.mem_cons, List.mem_singleton, not_or,
        List.not_mem_nil, or_false]
      exact ⟨⟨⟨⟨hP, by decide⟩, hname⟩, by decide, by decide⟩, hm⟩

/-- C5, exercised: a 25-character Error message in 24-byte items is cut to 23
bytes of text followed by NUL. -/
theorem C5_record_is_bounded_truncation_witness :
    ∃ record timeout,
      Log_compose exCfg 33 1 "hello world, this is long".toList exJunk = some (record, timeout)
        ∧ record.length = 24
        ∧ cstr record = "<error > [DL] hello wor".toList := by
  obtain ⟨_, _, record, timeout, hc, _, hl, _, _, ht⟩ :=
    C5_record_is_bounded_truncation exCfg 33 1 "hello world, this is long".toList exJunk
      (by decide) (by decide)
  exact ⟨record, timeout, hc, hl, (ht (by decide)).trans (by decide)⟩

/-! ## Claim C4 -/

theorem step_debugHardfault (cfg : Config) (s : Sys) (sched : SchedulerState)
    (f : FaultFrame) (junk : Nat → Char) :
    step cfg s (.debugHardfault sched f junk)
      = s.absorb (debugHardfault cfg s.st sched f junk) := rfl

/-- A retry with a free slot completes the send. -/
theorem wake_room (cfg : Config) (s : Sys) (i : Nat) (p : Pending) (q0 : List (List Char))
    (hp : s.waiting.get? i = some p) (hq : s.st.sLogQueueHandle = some q0)
    (hroom : q0.length < cfg.LOG_QUEUE_LEN) :
    (wake cfg s i).st.sLogQueueHandle = some (q0 ++ [p.item])
      ∧ (wake cfg s i).waiting = s.waiting.eraseIdx i
      ∧ (wake cfg s i).st.hookCalls = s.st.hookCalls + (if p.hook then 1 else 0) := by
  unfold wake
  rw [hp, hq]
  simp only [hroom, if_true]
  cases p.hook <;> simp [OnLogOutput]

/-- On the queue branch `PrintLog` only ever appends to the queue. -/
theorem PrintLog_queue_effect (cfg : Config) (st st1 : LogState) (q : List (List Char))
    (msg : List Char) (timeout : Nat) (hr : Running st) (hq : st.sLogQueueHandle = some q)
    (h : (PrintLog cfg st .taskSCHEDULER_RUNNING msg timeout).state = some st1) :
    st1.rtt = st.rtt ∧ ∃ l, st1.sLogQueueHandle = some (q ++ l) := by
  obtain ⟨hi, hf⟩ := hr
  simp only [PrintLog, hi, hf, hq, xQueueSend, if_true, beq_self_eq_true, Bool.and_self] at h
  split at h
  · rename_i q1 heq
    simp only [Outcome.state, Option.some.injEq] at h
    subst h
    refine ⟨rfl, ?_⟩
    split at heq
    · cases heq; exact ⟨_, rfl⟩
    · split at heq <;> cases heq
  · simp only [Outcome.state, Option.some.injEq] at h
    subst h; exact ⟨rfl, [], by simp [hq]⟩
  · simp only [Outcome.state, Option.some.injEq] at h
    subst h; exact ⟨rfl, [], by simp [hq]⟩

theorem thenOnLogOutput_queue_effect (o : Outcome) (st st1 : LogState) (q : List (List Char))
    (ho : ∀ st2, o.state = some st2 →
      st2.rtt = st.rtt ∧ ∃ l, st2.sLogQueueHandle = some (q ++ l))
    (h : o.thenOnLogOutput.state = some st1) :
    st1.rtt = st.rtt ∧ ∃ l, st1.sLogQueueHandle = some (q ++ l) := by
  cases o with
  | returned st2 =>
    simp only [Outcome.thenOnLogOutput, Outcome.state, Option.some.injEq] at h
    subst h
    simpa [OnLogOutput] using ho st2 rfl
  | blocked st2 p =>
    simp only [Outcome.thenOnLogOutput, Outcome.state, Option.some.injEq] at h
    subst h
    exact ho st2 rfl
  | undefined => simp [Outcome.thenOnLogOutput, Outcome.state] at h

/-- What one event of the Running phase does to queue and RTT channel: it
appends `admitted` items to the queue and writes nothing, or it is a spooler
iteration that removes the oldest item and writes its line. -/
theorem step_running_phase (cfg : Config) (s s1 : Sys) (e : Event) (q : List (List Char))
    (hr : Running s.st) (hq : s.st.sLogQueueHandle = some q)
    (he : e.inRunningPhase = true) (h : step cfg s e = some s1) :
    Running s1.st
      ∧ ((s1.st.sLogQueueHandle = some (q ++ admitted s s1) ∧ s1.st.rtt = s.st.rtt)
        ∨ ∃ item rest, q = item :: rest ∧ s1.st.sLogQueueHandle = some rest
            ∧ s1.st.rtt = s.st.rtt ++ (cstr item ++ newline) ∧ admitted s s1 = []) := by
  have grow : ∀ st1 : LogState,
      (st1.rtt = s.st.rtt ∧ ∃ l, st1.sLogQueueHandle = some (q ++ l)) → s1.st = st1 →
      (s1.st.sLogQueueHandle = some (q ++ admitted s s1) ∧ s1.st.rtt = s.st.rtt) := by
    intro st1 ⟨h1, l, h2⟩ he1
    rw [he1]
    refine ⟨?_, h1⟩
    simp [admitted, Sys.queue, he1, h2, hq]
  have flags : ∀ st1 : LogState,
      (st1.sHardFault = s.st.sHardFault ∧ st1.sLogInitialized = s.st.sLogInitialized) →
      s1.st = st1 → Running s1.st := by
    intro st1 ⟨h1, h2⟩ he1
    rw [he1]
    exact ⟨h2.trans hr.1, h1.trans hr.2⟩
  cases e with
  | efr32LogInit r q t => simp [Event.inRunningPhase] at he
  | debugHardfault sched f junk => simp [Event.inRunningPhase] at he
  | Log sched module category m junk =>
    simp only [Event.inRunningPhase, beq_iff_eq] at he
    subst he
    simp only [step] at h
    have hs := absorb_state _ _ _ h
    refine ⟨flags _ (Log_flags _ _ _ _ _ _ _ _ hs) rfl, Or.inl (grow s1.st ?_ rfl)⟩
    unfold Log at hs
    split at hs
    · split at hs
      · simp [Outcome.state] at hs
      · exact thenOnLogOutput_queue_effect _ s.st s1.st q
          (fun st2 h2 => PrintLog_queue_effect _ _ _ _ _ _ hr hq h2) hs
    · simp only [Outcome.state, Option.some.injEq] at hs
      rw [← hs]; exact ⟨rfl, [], by simp [OnLogOutput, hq]⟩
  | LwIPLog sched m junk =>
    simp only [Event.inRunningPhase, beq_iff_eq] at he
    subst he
    simp only [step] at h
    have hs := absorb_state _ _ _ h
    refine ⟨flags _ (LwIPLog_flags _ _ _ _ _ _ hs) rfl, Or.inl (grow s1.st ?_ rfl)⟩
    unfold LwIPLog at hs
    split at hs
    · simp [Outcome.state] at hs
    · exact thenOnLogOutput_queue_effect _ s.st s1.st q
        (fun st2 h2 => PrintLog_queue_effect _ _ _ _ _ _ hr hq h2) hs
  | otPlatLog sched lvl m junk =>
    simp only [Event.inRunningPhase, beq_iff_eq] at he
    subst he
    simp only [step] at h
    have hs := absorb_state _ _ _ h
    refine ⟨flags _ (otPlatLog_flags _ _ _ _ _ _ _ hs) rfl, Or.inl (grow s1.st ?_ rfl)⟩
    unfold otPlatLog at hs
    split at hs
    · split at hs
      · simp [Outcome.state] at hs
      · exact thenOnLogOutput_queue_effect _ s.st s1.st q
          (fun st2 h2 => PrintLog_queue_effect _ _ _ _ _ _ hr hq h2) hs
    · simp only [Outcome.state, Option.some.injEq] at hs
      rw [← hs]; exact ⟨rfl, [], by simp [OnLogOutput, hq]⟩
  | efr32Log sched m junk =>
    simp only [Event.inRunningPhase, beq_iff_eq] at he
    subst he
    simp only [step] at h
    have hs := absorb_state _ _ _ h
    refine ⟨flags _ (efr32Log_flags _ _ _ _ _ _ hs) rfl, Or.inl (grow s1.st ?_ rfl)⟩
    unfold efr32Log at hs
    split at hs
    · simp [Outcome.state] at hs
    · exact PrintLog_queue_effect _ _ _ _ _ _ hr hq hs
  | spool =>
    simp only [step] at h
    split at h
    · simp only [Option.map_eq_some'] at h
      obtain ⟨st1, e1, rfl⟩ := h
      refine ⟨flags _ (LogSpoolerTaskMain_flags _ _ e1) rfl, ?_⟩
      unfold LogSpoolerTaskMain at e1
      rw [hq] at e1
      cases q with
      | nil =>
        simp only [Option.some.injEq] at e1
        subst e1
        exact Or.inl (grow _ ⟨rfl, [], by simp [hq]⟩ rfl)
      | cons item rest =>
        simp only [Option.some.injEq] at e1
        subst e1
        refine Or.inr ⟨item, rest, rfl, rfl, ?_, ?_⟩
        · simp [SEGGER_RTT_WriteNoLock]
        · simp [admitted, Sys.queue, SEGGER_RTT_WriteNoLock, hq]
    · cases h
      exact ⟨hr, Or.inl (grow _ ⟨rfl, [], by simp [hq]⟩ rfl)⟩
  | wake i =>
    simp only [step, Option.some.injEq] at h
    subst h
    refine ⟨flags _ (wake_flags cfg s i) rfl, Or.inl (grow _ ?_ rfl)⟩
    unfold wake
    split
    · rename_i p1 q0 hp1 hq0
      rw [hq] at hq0
      cases hq0
      split
      · split
        · exact ⟨rfl, [p1.item], rfl⟩
        · exact ⟨rfl, [p1.item], rfl⟩
      · exact ⟨rfl, [], by simp [hq]⟩
    · exact ⟨rfl, [], by simp [hq]⟩
  | tick =>
    simp only [step, Option.some.injEq] at h
    subst h
    exact ⟨hr, Or.inl (grow (tick s).st ⟨rfl, [], by simp [tick, hq]⟩ rfl)⟩

theorem spoolOutput_cons (item : List Char) (items : List (List Char)) :
    spoolOutput (item :: items) = (cstr item ++ newline) ++ spoolOutput items := by
  simp [spoolOutput]

/-- C6: start in the Running state with the items `q0` queued and let any
sequence of Running-phase events happen (emitter calls of any producer under
the running scheduler, spooler iterations, retries, ticks). Let `A` be the
items the queue accepted, in order of acceptance. Then for some `k` the
spooler has written exactly the lines (text up to the NUL, then "\r\n") of
the first `k` items of `q0 ++ A`, in that order, and the queue holds the
remaining items in that order: nothing is reordered, duplicated or skipped.
Hence for any selection of records (those of one producer) the written ones
are an initial segment of the accepted ones. -/
theorem C6_spooler_writes_in_acceptance_order (cfg : Config) (evs : List Event)
    (s s1 : Sys) (q0 : List (List Char))
    (hr : Running s.st) (hq : s.st.sLogQueueHandle = some q0)
    (hev : ∀ e ∈ evs, e.inRunningPhase = true) (hrun : run cfg s evs = some s1) :
    ∃ k, k ≤ (q0 ++ admittedBy cfg s evs).length
      ∧ s1.st.rtt = s.st.rtt ++ spoolOutput ((q0 ++ admittedBy cfg s evs).take k)
      ∧ s1.st.sLogQueueHandle = some ((q0 ++ admittedBy cfg s evs).drop k)
      ∧ ∀ mine : List Char → Bool,
          (((q0 ++ admittedBy cfg s evs).take k).filter mine)
            <+: ((q0 ++ admittedBy cfg s evs).filter mine) := by
  induction evs generalizing s q0 with
  | nil =>
    simp only [run, Option.some.injEq] at hrun
    subst hrun
    exact ⟨0, by simp, by simp [spoolOutput], by simp [admittedBy, hq],
      fun mine => by simp⟩
  | cons e es ih =>
    simp only [run, Option.bind_eq_some] at hrun
    obtain ⟨s2, h2, h3⟩ := hrun
    have he := hev e (List.mem_cons_self _ _)
    have hes : ∀ e' ∈ es, e'.inRunningPhase = true :=
      fun e' h' => hev e' (List.mem_cons_of_mem _ h')
    obtain ⟨hr2, hcase⟩ := step_running_phase cfg s s2 e q0 hr hq he h2
    have hA : admittedBy cfg s (e :: es) = admitted s s2 ++ admittedBy cfg s2 es := by
      simp only [admittedBy, h2]
    rw [hA]
    rcases hcase with ⟨hq2, hrtt⟩ | ⟨item, rest, hq0, hq2, hrtt, hadm⟩
    · obtain ⟨k, hk, h5, h6, h7⟩ := ih s2 (q0 ++ admitted s s2) hr2 hq2 hes h3
      rw [List.append_assoc] at hk h5 h6 h7
      exact ⟨k, hk, by rw [h5, hrtt], h6, h7⟩
    · obtain ⟨k, hk, h5, h6, h7⟩ := ih s2 rest hr2 hq2 hes h3
      subst hq0
      rw [hadm, List.nil_append]
      refine ⟨k + 1, by simpa using hk, ?_, ?_, ?_⟩
      · rw [h5, hrtt, List.cons_append, List.take_succ_cons, spoolOutput_cons]
        simp only [List.append_assoc]
      · rw [h6, List.cons_append, List.drop_succ_cons]
      · intro mine
        exact (List.take_prefix _ _).filter mine

/-- C6, exercised: three emits interleaved with two spooler iterations; the
queue accepted a, b, c in that order, the RTT channel received the lines of a
and b in that order, and c is still queued. -/
theorem C6_spooler_writes_in_acceptance_order_witness :
    admittedBy exCfg ⟨exRunning, []⟩ exInterleaving
        = [exRecord "a".toList, exRecord "b".toList, exRecord "c".toList]
    ∧ ∃ s1 k, run exCfg ⟨exRunning, []⟩ exInterleaving = some s1
        ∧ s1.st.rtt = exRunning.rtt
            ++ spoolOutput (([] ++ admittedBy exCfg ⟨exRunning, []⟩ exInterleaving).take k)
        ∧ s1.st.sLogQueueHandle
            = some (([] ++ admittedBy exCfg ⟨exRunning, []⟩ exInterleaving).drop k)
        ∧ s1.st.rtt = "<info  > [DL] a\r\n<info  > [DL] b\r\n".toList
        ∧ s1.st.sLogQueueHandle = some [exRecord "c".toList] := by
  refine ⟨by decide, ?_⟩
  have hrun : ∃ s1, run exCfg ⟨exRunning, []⟩ exInterleaving = some s1
      ∧ s1.st.rtt = "<info  > [DL] a\r\n<info  > [DL] b\r\n".toList
      ∧ s1.st.sLogQueueHandle = some [exRecord "c".toList] := by
    decide
  obtain ⟨s1, h1, h2, h3⟩ := hrun
  obtain ⟨k, _, h5, h6, _⟩ :=
    C6_spooler_writes_in_acceptance_order exCfg exInterleaving ⟨exRunning, []⟩ s1 []
      (by decide) rfl (by decide) h1
  exact ⟨s1, k, h1, h5, h6, h2, h3⟩

/-! ## Claim C7 -/

theorem PrintLog_hookCalls (cfg : Config) (st st1 : LogState) (sched : SchedulerState)
    (msg : List Char) (timeout : Nat)
    (h : (PrintLog cfg st sched msg timeout).state = some st1) :
    st1.hookCalls = st.hookCalls := by
  unfold PrintLog at h
  split at h
  · split at h
    · split at h
      · cases h
      · split at h <;> (simp only [Outcome.state, Option.some.injEq] at h; subst h; rfl)
    · simp only [Outcome.state, Option.some.injEq] at h
      subst h; rfl
  · simp only [Outcome.state, Option.some.injEq] at h
    subst h; rfl

theorem PrintLog_blocked_hook (cfg : Config) (st st1 : LogState) (sched : SchedulerState)
    (msg : List Char) (timeout : Nat) (p : Pending)
    (h : PrintLog cfg st sched msg timeout = .blocked st1 p) : p.hook = false := by
  unfold PrintLog at h
  split at h
  · split at h
    · split at h
      · cases h
      · split at h
        · cases h
        · cases h
        · cases h; rfl
    · cases h
  · cases h

/-- The hook count after an emitter that calls `OnLogOutput` behind `PrintLog`. -/
theorem thenOnLogOutput_hookCalls (cfg : Config) (st : LogState) (sched : SchedulerState)
    (msg : List Char) (timeout : Nat) :
    (∀ st1, (PrintLog cfg st sched msg timeout).thenOnLogOutput = .returned st1 →
        st1.hookCalls = st.hookCalls + 1)
    ∧ (∀ st1 p, (PrintLog cfg st sched msg timeout).thenOnLogOutput = .blocked st1 p →
        st1.hookCalls = st.hookCalls ∧ p.hook = true) := by
  constructor
  · intro st1 h
    cases ho : PrintLog cfg st sched msg timeout with
    | returned st2 =>
      rw [ho] at h
      simp only [Outcome.thenOnLogOutput, Outcome.returned.injEq] at h
      subst h
      have := PrintLog_hookCalls cfg st st2 sched msg timeout (by rw [ho]; rfl)
      simp [OnLogOutput, this]
    | blocked st2 p => rw [ho] at h; simp [Outcome.thenOnLogOutput] at h
    | undefined => rw [ho] at h; simp [Outcome.thenOnLogOutput] at h
  · intro st1 p h
    cases ho : PrintLog cfg st sched msg timeout with
    | returned st2 => rw [ho] at h; simp [Outcome.thenOnLogOutput] at h
    | blocked st2 p2 =>
      rw [ho] at h
      simp only [Outcome.thenOnLogOutput, Outcome.blocked.injEq] at h
      obtain ⟨h1, h2⟩ := h
      subst h1 h2
      exact ⟨PrintLog_hookCalls cfg st st2 sched msg timeout (by rw [ho]; rfl), rfl⟩
    | undefined => rw [ho] at h; simp [Outcome.thenOnLogOutput] at h

/-- C7 fails as stated, in both directions. On the running system `Log` with
the disabled category Detail delivers nothing (queue and RTT channel are
unchanged) and yet `OnLogOutput` has run once; and `efr32Log` delivers its
record to the queue without `OnLogOutput` having run. -/
theorem C7_counterexample :
    exCfg.IsCategoryEnabled 3 = false
    ∧ Log exCfg exRunning .taskSCHEDULER_RUNNING 33 3 "x".toList exJunk
        = .returned { exRunning with hookCalls := exRunning.hookCalls + 1 }
    ∧ cstr exEfr32Record = "<efr32 > x".toList
    ∧ efr32Log exCfg exRunning .taskSCHEDULER_RUNNING "x".toList exJunk
        = .returned { exRunning with sLogQueueHandle := some [exEfr32Record],
                                     hookCalls := exRunning.hookCalls } := by
  decide

/-- C7, amended: `OnLogOutput` is tied to the call, not to delivery. Every
call of `Log`, `LwIPLog` or `otPlatLog` that returns has invoked it exactly
once, whether a record was delivered or not: also for a disabled category,
for `otPlatLog` on an uninitialised pipeline, and for a record dropped on a
full queue. A call suspended in `xQueueSend` has not invoked it yet and
invokes it once when its retry completes. `efr32Log` never invokes it, also
when its record is delivered. -/
theorem C7_hook_runs_once_per_call (cfg : Config) (st : LogState) (sched : SchedulerState)
    (m : List Char) (junk : Nat → Char) :
    (∀ module category,
      (∀ st1, Log cfg st sched module category m junk = .returned st1 →
        st1.hookCalls = st.hookCalls + 1)
      ∧ (∀ st1 p, Log cfg st sched module category m junk = .blocked st1 p →
        st1.hookCalls = st.hookCalls ∧ p.hook = true)
      ∧ (cfg.IsCategoryEnabled category = false →
        Log cfg st sched module category m junk = .returned (OnLogOutput st)))
    ∧ ((∀ st1, LwIPLog cfg st sched m junk = .returned st1 →
        st1.hookCalls = st.hookCalls + 1)
      ∧ (∀ st1 p, LwIPLog cfg st sched m junk = .blocked st1 p →
        st1.hookCalls = st.hookCalls ∧ p.hook = true))
    ∧ (∀ lvl,
      (∀ st1, otPlatLog cfg st sched lvl m junk = .returned st1 →
        st1.hookCalls = st.hookCalls + 1)
      ∧ (∀ st1 p, otPlatLog cfg st sched lvl m junk = .blocked st1 p →
        st1.hookCalls = st.hookCalls ∧ p.hook = true)
      ∧ (st.sLogInitialized = false →
        otPlatLog cfg st sched lvl m junk = .returned (OnLogOutput st)))
    ∧ ((∀ st1, efr32Log cfg st sched m junk = .returned st1 →
        st1.hookCalls = st.hookCalls)
      ∧ (∀ st1 p, efr32Log cfg st sched m junk = .blocked st1 p →
        st1.hookCalls = st.hookCalls ∧ p.hook = false))
    ∧ (∀ (s : Sys) (i : Nat) (p : Pending) (q0 : List (List Char)),
        s.waiting.get? i = some p → s.st.sLogQueueHandle = some q0 →
        q0.length < cfg.LOG_QUEUE_LEN →
        (wake cfg s i).st.hookCalls = s.st.hookCalls + (if p.hook then 1 else 0)) := by
  refine ⟨fun module category => ⟨?_, ?_, ?_⟩, ⟨?_, ?_⟩, fun lvl => ⟨?_, ?_, ?_⟩, ⟨?_, ?_⟩,
    fun s i p q0 hp hq hroom => (wake_room cfg s i p q0 hp hq hroom).2.2⟩
  · intro st1 h
    unfold Log at h
    split at h
    · split at h
      · cases h
      · exact (thenOnLogOutput_hookCalls cfg st sched _ _).1 st1 h
    · cases h; rfl
  · intro st1 p h
    unfold Log at h
    split at h
    · split at h
      · cases h
      · exact (thenOnLogOutput_hookCalls cfg st sched _ _).2 st1 p h
    · cases h
  · intro hdis
    simp [Log, hdis]
  · intro st1 h
    unfold LwIPLog at h
    split at h
    · cases h
    · exact (thenOnLogOutput_hookCalls cfg st sched _ _).1 st1 h
  · intro st1 p h
    unfold LwIPLog at h
    split at h
    · cases h
    · exact (thenOnLogOutput_hookCalls cfg st sched _ _).2 st1 p h
  · intro st1 h
    unfold otPlatLog at h
    split at h
    · split at h
      · cases h
      · exact (thenOnLogOutput_hookCalls cfg st sched _ _).1 st1 h
    · cases h; rfl
  · intro st1 p h
    unfold otPlatLog at h
    split at h
    · split at h
      · cases h
      · exact (thenOnLogOutput_hookCalls cfg st sched _ _).2 st1 p h
    · cases h
  · intro hu
    simp [otPlatLog, hu]
  · intro st1 h
    unfold efr32Log at h
    split at h
    · cases h
    · exact PrintLog_hookCalls cfg st st1 sched _ _ (by rw [h]; rfl)
  · intro st1 p h
    unfold efr32Log at h
    split at h
    · cases h
    · exact ⟨PrintLog_hookCalls cfg st st1 sched _ _ (by rw [h]; rfl),
        PrintLog_blocked_hook cfg st st1 sched _ _ p h⟩

/-- C7 amended, exercised: a Progress emit dropped on the full queue still
counts one hook call. -/
theorem C7_hook_runs_once_per_call_witness :
    Log exCfg exFull .taskSCHEDULER_RUNNING 33 2 "c".toList exJunk
        = .returned (OnLogOutput exFull)
    ∧ (OnLogOutput exFull).hookCalls = exFull.hookCalls + 1 :=
  ⟨by decide,
    ((C7_hook_runs_once_per_call exCfg exFull .taskSCHEDULER_RUNNING "c".toList exJunk).1
      33 2).1 _ (by decide)⟩

/-! ## Claim C8 -/

/-- C8 fails as stated: `efr32LogInit` returns 0 although the sink
configuration reported an error, and a queue-creation failure and a
task-creation failure yield the same value -1. -/
theorem C8_counterexample :
    (efr32LogInit (LogState.boot exCfg) (-1) true true).2 = 0
    ∧ (efr32LogInit (LogState.boot exCfg) 0 false true).2 = -1
    ∧ (efr32LogInit (LogState.boot exCfg) 0 true false).2 = -1 := by
  decide

/-- C8, amended: `efr32LogInit` returns 0 exactly when queue creation and
spooler-task creation both succeed, whatever the sink configuration reported
(its status is not examined); when either creation fails it returns -1, the
same value for both steps. -/
theorem C8_init_status (st : LogState) (rttStatus : Int) (queueCreated taskCreated : Bool) :
    ((efr32LogInit st rttStatus queueCreated taskCreated).2 = 0
        ↔ (queueCreated = true ∧ taskCreated = true))
    ∧ (¬ (queueCreated = true ∧ taskCreated = true) →
        (efr32LogInit st rttStatus queueCreated taskCreated).2 = -1) := by
  cases queueCreated <;> cases taskCreated <;> simp [efr32LogInit]

/-- C8 amended, exercised on the booted system with a failing task creation. -/
theorem C8_init_status_witness :
    (efr32LogInit (LogState.boot exCfg) 0 true false).2 = -1 :=
  (C8_init_status (LogState.boot exCfg) 0 true false).2 (by decide)

/-! ## Claim C9 -/

theorem efr32LogInit_from_uninitialized (st : LogState) (r : Int) (q t : Bool)
    (hu : Uninitialized st) :
    (Running (efr32LogInit st r q t).1 ↔ (q = true ∧ t = true))
    ∧ (¬ (q = true ∧ t = true) → Uninitialized (efr32LogInit st r q t).1) := by
  obtain ⟨h1, h2⟩ := hu
  cases q <;> cases t <;> simp [efr32LogInit, h1, h2, Running, Uninitialized]

theorem PrintLog_task (cfg : Config) (st : LogState) (sched : SchedulerState)
    (msg : List Char) (timeout : Nat) (st1 : LogState)
    (h : (PrintLog cfg st sched msg timeout).state = some st1) :
    st1.sLogSpoolerTaskHandle = st.sLogSpoolerTaskHandle := by
  unfold PrintLog at h
  split at h
  · split at h
    · split at h
      · cases h
      · split at h <;> (simp only [Outcome.state, Option.some.injEq] at h; subst h; rfl)
    · simp only [Outcome.state, Option.some.injEq] at h
      subst h; rfl
  · simp only [Outcome.state, Option.some.injEq] at h
    subst h; rfl

theorem thenOnLogOutput_task (o : Outcome) (st st1 : LogState)
    (ho : ∀ st2, o.state = some st2 → st2.sLogSpoolerTaskHandle = st.sLogSpoolerTaskHandle)
    (h : o.thenOnLogOutput.state = some st1) :
    st1.sLogSpoolerTaskHandle = st.sLogSpoolerTaskHandle := by
  cases o with
  | returned st2 =>
    simp only [Outcome.thenOnLogOutput, Outcome.state, Option.some.injEq] at h
    subst h
    simpa [OnLogOutput] using ho st2 rfl
  | blocked st2 p =>
    simp only [Outcome.thenOnLogOutput, Outcome.state, Option.some.injEq] at h
    subst h
    exact ho st2 rfl
  | undefined => simp [Outcome.thenOnLogOutput, Outcome.state] at h

/-- Apart from `efr32LogInit` and `debugHardfault`, no event touches the two
flags or the task handle. -/
theorem step_frame (cfg : Config) (s s1 : Sys) (e : Event) (h : step cfg s e = some s1)
    (h1 : ∀ r q t, e ≠ .efr32LogInit r q t) (h2 : ∀ sched f junk, e ≠ .debugHardfault sched f junk) :
    s1.st.sHardFault = s.st.sHardFault ∧ s1.st.sLogInitialized = s.st.sLogInitialized
      ∧ s1.st.sLogSpoolerTaskHandle = s.st.sLogSpoolerTaskHandle := by
  cases e with
  | efr32LogInit r q t => exact absurd rfl (h1 r q t)
  | debugHardfault sched f junk => exact absurd rfl (h2 sched f junk)
  | Log sched module category m junk =>
    simp only [step] at h
    have hs := absorb_state _ _ _ h
    have hf := Log_flags _ _ _ _ _ _ _ _ hs
    refine ⟨hf.1, hf.2, ?_⟩
    unfold Log at hs
    split at hs
    · split at hs
      · simp [Outcome.state] at hs
      · exact thenOnLogOutput_task _ s.st s1.st
          (fun st2 h2 => PrintLog_task _ _ _ _ _ _ h2) hs
    · simp only [Outcome.state, Option.some.injEq] at hs
      rw [← hs]; rfl
  | LwIPLog sched m junk =>
    simp only [step] at h
    have hs := absorb_state _ _ _ h
    have hf := LwIPLog_flags _ _ _ _ _ _ hs
    refine ⟨hf.1, hf.2, ?_⟩
    unfold LwIPLog at hs
    split at hs
    · simp [Outcome.state] at hs
    · exact thenOnLogOutput_task _ s.st s1.st
        (fun st2 h2 => PrintLog_task _ _ _ _ _ _ h2) hs
  | otPlatLog sched lvl m junk =>
    simp only [step] at h
    have hs := absorb_state _ _ _ h
    have hf := otPlatLog_flags _ _ _ _ _ _ _ hs
    refine ⟨hf.1, hf.2, ?_⟩
    unfold otPlatLog at hs
    split at hs
    · split at hs
      · simp [Outcome.state] at hs
      · exact thenOnLogOutput_task _ s.st s1.st
          (fun st2 h2 => PrintLog_task _ _ _ _ _ _ h2) hs
    · simp only [Outcome.state, Option.some.injEq] at hs
      rw [← hs]; rfl
  | efr32Log sched m junk =>
    simp only [step] at h
    have hs := absorb_state _ _ _ h
    have hf := efr32Log_flags _ _ _ _ _ _ hs
    refine ⟨hf.1, hf.2, ?_⟩
    unfold efr32Log at hs
    split at hs
    · simp [Outcome.state] at hs
    · exact PrintLog_task _ _ _ _ _ _ hs
  | spool =>
    simp only [step] at h
    split at h
    · simp only [Option.map_eq_some'] at h
      obtain ⟨st1, e1, rfl⟩ := h
      have hf := LogSpoolerTaskMain_flags _ _ e1
      refine ⟨hf.1, hf.2, ?_⟩
      unfold LogSpoolerTaskMain at e1
      split at e1
      · cases e1
      · cases e1; rfl
      · cases e1; rfl
    · cases h; exact ⟨rfl, rfl, rfl⟩
  | wake i =>
    simp only [step, Option.some.injEq] at h
    subst h
    have hf := wake_flags cfg s i
    refine ⟨hf.1, hf.2, ?_⟩
    unfold wake
    split
    · split
      · split <;> rfl
      · rfl
    · rfl
  | tick =>
    simp only [step, Option.some.injEq] at h
    subst h
    exact ⟨rfl, rfl, rfl⟩

/-- If an event leads to the Running state, the state before was Running
(and the task handle is the same) or the event is an `efr32LogInit` call
whose two creations succeeded. -/
theorem step_into_Running (cfg : Config) (s s1 : Sys) (e : Event)
    (h : step cfg s e = some s1) (hr : Running s1.st) :
    (Running s.st ∧ s1.st.sLogSpoolerTaskHandle = s.st.sLogSpoolerTaskHandle)
      ∨ ((∃ r, e = .efr32LogInit r true true) ∧ s1.st.sLogSpoolerTaskHandle = true) := by
  by_cases hi : ∃ r q t, e = .efr32LogInit r q t
  · obtain ⟨r, q, t, rfl⟩ := hi
    simp only [step, Option.some.injEq] at h
    subst h
    revert hr
    cases q <;> cases t <;> simp [efr32LogInit, Running]
  · by_cases hd : ∃ sched f junk, e = .debugHardfault sched f junk
    · obtain ⟨sched, f, junk, rfl⟩ := hd
      rw [step_debugHardfault] at h
      obtain ⟨st1, e1, hF, _⟩ := debugHardfault_enters cfg s.st sched f junk
      rw [e1] at h
      simp only [Sys.absorb, Option.some.injEq] at h
      subst h
      exact absurd hr.2 (by simp [hF.1])
    · have hf := step_frame cfg s s1 e h
        (fun r q t he => hi ⟨r, q, t, he⟩) (fun sched f junk he => hd ⟨sched, f, junk, he⟩)
      exact Or.inl ⟨⟨hf.2.1 ▸ hr.1, hf.1 ▸ hr.2⟩, hf.2.2⟩

theorem run_into_Running (cfg : Config) (evs : List Event) (s s1 : Sys)
    (h : run cfg s evs = some s1) (hr : Running s1.st) :
    (Running s.st ∧ s1.st.sLogSpoolerTaskHandle = s.st.sLogSpoolerTaskHandle)
      ∨ ((∃ r, Event.efr32LogInit r true true ∈ evs)
          ∧ s1.st.sLogSpoolerTaskHandle = true) := by
  induction evs generalizing s with
  | nil =>
    simp only [run, Option.some.injEq] at h
    subst h
    exact Or.inl ⟨hr, rfl⟩
  | cons e es ih =>
    simp only [run, Option.bind_eq_some] at h
    obtain ⟨s2, h2, h3⟩ := h
    rcases ih s2 h3 with ⟨hr2, ht⟩ | ⟨⟨r, hmem⟩, ht⟩
    · rcases step_into_Running cfg s s2 e h2 hr2 with ⟨hr0, ht0⟩ | ⟨⟨r, he⟩, ht0⟩
      · exact Or.inl ⟨hr0, ht.trans ht0⟩
      · exact Or.inr ⟨⟨r, by rw [he]; exact List.mem_cons_self _ _⟩, ht.trans ht0⟩
    · exact Or.inr ⟨⟨r, List.mem_cons_of_mem _ hmem⟩, ht⟩

theorem PrintLog_handle (cfg : Config) (st : LogState) (sched : SchedulerState)
    (msg : List Char) (timeout : Nat) (st1 : LogState)
    (h : (PrintLog cfg st sched msg timeout).state = some st1) :
    st1.sLogQueueHandle.isSome = st.sLogQueueHandle.isSome := by
  unfold PrintLog at h
  split at h
  · split at h
    · split at h
      · cases h
      · rename_i q hq
        split at h <;>
          (simp only [Outcome.state, Option.some.injEq] at h; subst h; simp [hq])
    · simp only [Outcome.state, Option.some.injEq] at h
      subst h; rfl
  · simp only [Outcome.state, Option.some.injEq] at h
    subst h; rfl

theorem thenOnLogOutput_handle (o : Outcome) (st st1 : LogState)
    (ho : ∀ st2, o.state = some st2 →
      st2.sLogQueueHandle.isSome = st.sLogQueueHandle.isSome)
    (h : o.thenOnLogOutput.state = some st1) :
    st1.sLogQueueHandle.isSome = st.sLogQueueHandle.isSome := by
  cases o with
  | returned st2 =>
    simp only [Outcome.thenOnLogOutput, Outcome.state, Option.some.injEq] at h
    subst h
    simpa [OnLogOutput] using ho st2 rfl
  | blocked st2 p =>
    simp only [Outcome.thenOnLogOutput, Outcome.state, Option.some.injEq] at h
    subst h
    exact ho st2 rfl
  | undefined => simp [Outcome.thenOnLogOutput, Outcome.state] at h

/-- Apart from `efr32LogInit` and `debugHardfault`, no event turns the queue
handle into NULL or NULL into a handle. -/
theorem step_handle (cfg : Config) (s s1 : Sys) (e : Event) (h : step cfg s e = some s1)
    (h1 : ∀ r q t, e ≠ .efr32LogInit r q t)
    (h2 : ∀ sched f junk, e ≠ .debugHardfault sched f junk) :
    s1.st.sLogQueueHandle.isSome = s.st.sLogQueueHandle.isSome := by
  cases e with
  | efr32LogInit r q t => exact absurd rfl (h1 r q t)
  | debugHardfault sched f junk => exact absurd rfl (h2 sched f junk)
  | Log sched module category m junk =>
    simp only [step] at h
    have hs := absorb_state _ _ _ h
    unfold Log at hs
    split at hs
    · split at hs
      · simp [Outcome.state] at hs
      · exact thenOnLogOutput_handle _ s.st s1.st
          (fun st2 h2 => PrintLog_handle _ _ _ _ _ _ h2) hs
    · simp only [Outcome.state, Option.some.injEq] at hs
      rw [← hs]; rfl
  | LwIPLog sched m junk =>
    simp only [step] at h
    have hs := absorb_state _ _ _ h
    unfold LwIPLog at hs
    split at hs
    · simp [Outcome.state] at hs
    · exact thenOnLogOutput_handle _ s.st s1.st
        (fun st2 h2 => PrintLog_handle _ _ _ _ _ _ h2) hs
  | otPlatLog sched lvl m junk =>
    simp only [step] at h
    have hs := absorb_state _ _ _ h
    unfold otPlatLog at hs
    split at hs
    · split at hs
      · simp [Outcome.state] at hs
      · exact thenOnLogOutput_handle _ s.st s1.st
          (fun st2 h2 => PrintLog_handle _ _ _ _ _ _ h2) hs
    · simp only [Outcome.state, Option.some.injEq] at hs
      rw [← hs]; rfl
  | efr32Log sched m junk =>
    simp only [step] at h
    have hs := absorb_state _ _ _ h
    unfold efr32Log at hs
    split at hs
    · simp [Outcome.state] at hs
    · exact PrintLog_handle _ _ _ _ _ _ hs
  | spool =>
    simp only [step] at h
    split at h
    · simp only [Option.map_eq_some'] at h
      obtain ⟨st1, e1, rfl⟩ := h
      unfold LogSpoolerTaskMain at e1
      split at e1
      · cases e1
      · cases e1; rfl
      · rename_i item rest hq
        cases e1
        simp [SEGGER_RTT_WriteNoLock, hq]
    · cases h; rfl
  | wake i =>
    simp only [step, Option.some.injEq] at h
    subst h
    unfold wake
    split
    · rename_i p1 q0 hp1 hq0
      split
      · split <;> simp [OnLogOutput, hq0]
      · rfl
    · rfl
  | tick =>
    simp only [step, Option.some.injEq] at h
    subst h
    rfl

/-- Every event keeps the queue ready, except an `efr32LogInit` call made in
the Running state whose `xQueueCreate` fails. -/
theorem step_queueReady (cfg : Config) (s s1 : Sys) (e : Event)
    (h : step cfg s e = some s1) (hJ : queueReady s.st)
    (hk : (e.isQueueFailure && decide (Running s.st)) = false) : queueReady s1.st := by
  by_cases hi : ∃ r q t, e = .efr32LogInit r q t
  · obtain ⟨r, q, t, rfl⟩ := hi
    simp only [step, Option.some.injEq] at h
    subst h
    revert hJ hk
    cases q <;> cases t <;>
      simp [efr32LogInit, Running, queueReady, Event.isQueueFailure]
    intro hJ hi hf
    exact (hJ hi hf).2
  · by_cases hd : ∃ sched f junk, e = .debugHardfault sched f junk
    · obtain ⟨sched, f, junk, rfl⟩ := hd
      rw [step_debugHardfault] at h
      obtain ⟨st1, e1, hF, _⟩ := debugHardfault_enters cfg s.st sched f junk
      rw [e1] at h
      simp only [Sys.absorb, Option.some.injEq] at h
      subst h
      intro hr
      exact absurd hr.2 (by simp [hF.1])
    · have hf := step_frame cfg s s1 e h
        (fun r q t he => hi ⟨r, q, t, he⟩) (fun sched f junk he => hd ⟨sched, f, junk, he⟩)
      have hh := step_handle cfg s s1 e h
        (fun r q t he => hi ⟨r, q, t, he⟩) (fun sched f junk he => hd ⟨sched, f, junk, he⟩)
      intro hr
      have hr0 : Running s.st := ⟨hf.2.1 ▸ hr.1, hf.1 ▸ hr.2⟩
      have := hJ hr0
      exact ⟨hh.trans this.1, hf.2.2.trans this.2⟩

theorem run_queueReady (cfg : Config) (evs : List Event) (s s1 : Sys)
    (hJ : queueReady s.st) (hk : reinitKeepsQueue cfg s evs = true)
    (h : run cfg s evs = some s1) : queueReady s1.st := by
  induction evs generalizing s with
  | nil =>
    simp only [run, Option.some.injEq] at h
    subst h
    exact hJ
  | cons e es ih =>
    simp only [run, Option.bind_eq_some] at h
    obtain ⟨s2, h2, h3⟩ := h
    simp only [reinitKeepsQueue, h2, Bool.and_eq_true, Bool.not_eq_true'] at hk
    exact ih s2 (step_queueReady cfg s s2 e h2 hJ hk.1) hk.2 h3

/-- C9 fails as stated: from the booted system, a successful `efr32LogInit`
followed by an `efr32LogInit` whose `xQueueCreate` fails reaches a state in
which `PrintLog` takes the queue branch (initialised, not faulted, scheduler
running) while `sLogQueueHandle` is NULL, so there is no created queue behind
it and the send is undefined. -/
theorem C9_counterexample :
    Uninitialized exBoot.st
    ∧ (run exCfg exBoot [.efr32LogInit 0 true true, .efr32LogInit 0 false true]).map
          (fun s => (decide (takesQueuePath s.st .taskSCHEDULER_RUNNING),
            s.st.sLogQueueHandle,
            PrintLog exCfg s.st .taskSCHEDULER_RUNNING "x".toList 0))
        = some (true, none, .undefined) := by
  decide

/-- C9, amended: called in the Uninitialized state, `efr32LogInit` ends in the
Running state exactly when queue creation and task creation both succeed, and
otherwise leaves the pipeline Uninitialized (`sLogInitialized` still false).
Consequently, after any sequence of events from an Uninitialized state
(`efr32LogInit` with any outcomes, `debugHardfault`, emitter calls, spooler
iterations, retries, ticks) in which no `efr32LogInit` call made in the
Running state fails at queue creation, `PrintLog` takes the queue branch
(initialised, not faulted, scheduler running) only when `sLogQueueHandle`
holds a created queue and the spooler task has been created, both by an
`efr32LogInit` call of that sequence in which both creations succeeded; the
send is then never made on a NULL handle. -/
theorem C9_queue_path_has_its_queue (cfg : Config) :
    (∀ (st : LogState) (r : Int) (q t : Bool), Uninitialized st →
      (Running (efr32LogInit st r q t).1 ↔ (q = true ∧ t = true))
      ∧ (¬ (q = true ∧ t = true) →
          Uninitialized (efr32LogInit st r q t).1
            ∧ (efr32LogInit st r q t).1.sLogInitialized = false))
    ∧ (∀ (s s1 : Sys) (evs : List Event) (sched : SchedulerState),
        Uninitialized s.st → reinitKeepsQueue cfg s evs = true →
        run cfg s evs = some s1 → takesQueuePath s1.st sched →
        (∃ q, s1.st.sLogQueueHandle = some q)
          ∧ s1.st.sLogSpoolerTaskHandle = true
          ∧ (∃ r, Event.efr32LogInit r true true ∈ evs)
          ∧ ∀ msg timeout, PrintLog cfg s1.st sched msg timeout ≠ .undefined) := by
  constructor
  · intro st r q t hu
    have := efr32LogInit_from_uninitialized st r q t hu
    exact ⟨this.1, fun hn => ⟨this.2 hn, (this.2 hn).1⟩⟩
  · intro s s1 evs sched hu hk hrun hpath
    have hJ0 : queueReady s.st := fun hr => absurd hr.1 (by simp [hu.1])
    have hJ := run_queueReady cfg evs s s1 hJ0 hk hrun ⟨hpath.1, hpath.2.1⟩
    obtain ⟨q, hq⟩ := Option.isSome_iff_exists.mp hJ.1
    refine ⟨⟨q, hq⟩, hJ.2, ?_, ?_⟩
    · rcases run_into_Running cfg evs s s1 hrun ⟨hpath.1, hpath.2.1⟩ with ⟨hr0, _⟩ | h
      · exact absurd hr0.1 (by simp [hu.1])
      · exact h.1
    · intro msg timeout
      obtain ⟨hi, hf, hs⟩ := hpath
      simp only [PrintLog, hi, hf, hs, hq, xQueueSend]
      split <;> simp
      split <;> simp

/-- C9 amended, exercised: on the booted system a failed task creation, a
Detail emit, a successful `efr32LogInit`, a repeated `efr32LogInit` whose task
creation fails, and a Progress emit lead to a state in which `PrintLog` takes
the queue branch with a queue behind it. -/
theorem C9_queue_path_has_its_queue_witness :
    ∃ s1, run exCfg exBoot exInitHistory = some s1
      ∧ takesQueuePath s1.st .taskSCHEDULER_RUNNING
      ∧ (∃ q, s1.st.sLogQueueHandle = some q)
      ∧ s1.st.sLogSpoolerTaskHandle = true := by
  have hrun : ∃ s1, run exCfg exBoot exInitHistory = some s1
      ∧ takesQueuePath s1.st .taskSCHEDULER_RUNNING := by
    decide
  obtain ⟨s1, h1, h2⟩ := hrun
  have h := (C9_queue_path_has_its_queue exCfg).2 exBoot s1 exInitHistory
    .taskSCHEDULER_RUNNING (by decide) (by decide) h1 h2
  exact ⟨s1, h1, h2, h.1, h.2.1⟩

/-- A later `efr32LogInit` whose queue creation fails leaves `sLogInitialized`
set and the queue handle NULL: the queue branch of `PrintLog` then has no
queue to send to. -/
theorem reinit_failure_leaves_null_handle :
    (efr32LogInit exRunning 0 false true).1.sLogInitialized = true
    ∧ (efr32LogInit exRunning 0 false true).1.sLogQueueHandle = none
    ∧ PrintLog exCfg (efr32LogInit exRunning 0 false true).1 .taskSCHEDULER_RUNNING
        "x".toList 0 = .undefined := by
  decide

/-! ## Claim C10 -/

theorem collectedFrom_zero (e : Nat) (script : List (Int × Nat)) (he : e < SIZE_MODULUS) :
    collectedFrom e script 0 = e := by
  simp [collectedFrom, Nat.mod_eq_of_lt he]

theorem collectedFrom_succ (e : Nat) (status : Int) (olen : Nat) (rest : List (Int × Nat))
    (i : Nat) :
    collectedFrom e ((status, olen) :: rest) (i + 1)
      = collectedFrom ((e + olen) % SIZE_MODULUS) rest i := by
  simp only [collectedFrom, List.take_succ_cons, List.map_cons, List.sum_cons]
  rw [Nat.mod_add_mod, Nat.add_assoc]

theorem range_map_shift (n : Nat) (f : Nat → Nat × Nat) :
    (List.range (n + 1)).map f = f 0 :: (List.range n).map (fun i => f (i + 1)) := by
  rw [List.range_succ_eq_map, List.map_cons, List.map_map]
  rfl

/-- What a return of the loop means. -/
theorem GetEntropy_loop_returned (count : Nat) (script : List (Int × Nat)) :
    ∀ (e : Nat) (res0 : Int) (polls0 : List (Nat × Nat)) (r : Int) (polls : List (Nat × Nat)),
      e < SIZE_MODULUS →
      GetEntropy_loop count e res0 polls0 script = .returned r polls →
      ∃ n, n ≤ script.length
        ∧ polls = polls0 ++ (List.range n).map
            (fun i => (collectedFrom e script i, count - collectedFrom e script i))
        ∧ (∀ i, i < n → collectedFrom e script i < count)
        ∧ ((r = res0 ∧ ¬ e < count ∧ n = 0)
          ∨ (0 < n ∧ (∀ x ∈ script.take (n - 1), x.1 = 0)
              ∧ (∃ olen, script.get? (n - 1) = some (r, olen))
              ∧ (r = 0 → count ≤ collectedFrom e script n))) := by
  induction script with
  | nil =>
    intro e res0 polls0 r polls he h
    simp only [GetEntropy_loop] at h
    split at h
    · cases h
    · rename_i hlt
      simp only [if_neg hlt, EntropyResult.returned.injEq] at h
      exact ⟨0, le_refl _, by simp [h.2], by simp, Or.inl ⟨h.1.symm, hlt, rfl⟩⟩
  | cons x rest ih =>
    obtain ⟨status, olen⟩ := x
    intro e res0 polls0 r polls he h
    simp only [GetEntropy_loop] at h
    split at h
    · rename_i hlt
      split at h
      · rename_i hst
        simp only [EntropyResult.returned.injEq] at h
        obtain ⟨h1, h2⟩ := h
        subst h1
        refine ⟨1, by simp, ?_, ?_, Or.inr ⟨by decide, by simp, ⟨olen, by simp⟩, ?_⟩⟩
        · rw [← h2]
          simp [List.range_succ, collectedFrom_zero e _ he]
        · intro i hi
          have : i = 0 := by omega
          subst this
          rw [collectedFrom_zero e _ he]; exact hlt
        · intro h0; exact absurd h0 hst
      · rename_i hst
        have hst0 : status = 0 := by simpa using hst
        subst hst0
        have he1 : (e + olen) % SIZE_MODULUS < SIZE_MODULUS :=
          Nat.mod_lt _ (by decide)
        obtain ⟨n, hn, hp, hc, hd⟩ := ih _ _ _ _ _ he1 h
        refine ⟨n + 1, by simpa using hn, ?_, ?_, Or.inr ⟨by omega, ?_, ?_, ?_⟩⟩
        · rw [hp, range_map_shift, collectedFrom_zero e _ he]
          simp only [collectedFrom_succ, List.append_assoc, List.singleton_append]
        · intro i hi
          cases i with
          | zero => rw [collectedFrom_zero e _ he]; exact hlt
          | succ j => rw [collectedFrom_succ]; exact hc j (by omega)
        · rcases hd with ⟨_, _, hn0⟩ | ⟨hpos, hall, _, _⟩
          · subst hn0; simp
          · intro x hx
            have hn1 : n + 1 - 1 = (n - 1) + 1 := by omega
            rw [hn1, List.take_succ_cons] at hx
            rcases List.mem_cons.mp hx with hx | hx
            · rw [hx]
            · exact hall x hx
        · rcases hd with ⟨hr, _, hn0⟩ | ⟨hpos, _, ⟨ol, hg⟩, _⟩
          · subst hn0; exact ⟨olen, by simp [hr]⟩
          · refine ⟨ol, ?_⟩
            have hn1 : n + 1 - 1 = (n - 1) + 1 := by omega
            rw [hn1, List.get?_cons_succ]; exact hg
        · intro hr0
          rw [collectedFrom_succ]
          rcases hd with ⟨_, hge, hn0⟩ | ⟨_, _, _, hcnt⟩
          · subst hn0
            rw [collectedFrom_zero _ _ he1]; omega
          · exact hcnt hr0
    · rename_i hlt
      simp only [if_neg hlt, EntropyResult.returned.injEq] at h
      exact ⟨0, by simp, by simp [h.2], by simp, Or.inl ⟨h.1.symm, hlt, rfl⟩⟩

/-- The script is used up with the loop still running only if every poll
succeeded and the bytes collected are still short of `count`. -/
theorem GetEntropy_loop_polling (count : Nat) (script : List (Int × Nat)) :
    ∀ (e : Nat) (res0 : Int) (polls0 polls : List (Nat × Nat)),
      e < SIZE_MODULUS →
      GetEntropy_loop count e res0 polls0 script = .polling polls →
      (∀ x ∈ script, x.1 = 0) ∧ polls.length = polls0.length + script.length
        ∧ collectedFrom e script script.length < count := by
  induction script with
  | nil =>
    intro e res0 polls0 polls he h
    simp only [GetEntropy_loop] at h
    split at h
    · rename_i hlt
      cases h
      exact ⟨by simp, by simp,
        by rw [List.length_nil, collectedFrom_zero e _ he]; exact hlt⟩
    · cases h
  | cons x rest ih =>
    obtain ⟨status, olen⟩ := x
    intro e res0 polls0 polls he h
    simp only [GetEntropy_loop] at h
    split at h
    · split at h
      · cases h
      · rename_i hst
        have hst0 : status = 0 := by simpa using hst
        subst hst0
        obtain ⟨h1, h2, h3⟩ := ih _ _ _ _ (Nat.mod_lt _ (by decide)) h
        refine ⟨?_, ?_, ?_⟩
        · intro y hy
          rcases List.mem_cons.mp hy with hy | hy
          · rw [hy]
          · exact h1 y hy
        · rw [h2]; simp; omega
        · rw [List.length_cons, collectedFrom_succ]; exact h3
    · cases h

theorem GetEntropy_loop_not_died (count : Nat) (script : List (Int × Nat)) :
    ∀ (e : Nat) (res0 : Int) (polls0 : List (Nat × Nat)),
      GetEntropy_loop count e res0 polls0 script ≠ .died := by
  induction script with
  | nil =>
    intro e res0 polls0
    simp only [GetEntropy_loop]
    split <;> simp
  | cons x rest ih =>
    obtain ⟨status, olen⟩ := x
    intro e res0 polls0
    simp only [GetEntropy_loop]
    split
    · split
      · simp
      · exact ih _ _ _
    · simp

theorem produced_succ (script : List (Int × Nat)) (i : Nat) (status : Int) (olen : Nat)
    (h : script.get? i = some (status, olen)) :
    produced script (i + 1) = produced script i + olen := by
  unfold produced
  rw [List.take_succ, ← List.get?_eq_getElem?, h]
  simp

theorem mem_take_succ (script : List (Int × Nat)) (i : Nat) (y x : Int × Nat)
    (h : script.get? i = some y) (hx : x ∈ script.take (i + 1)) :
    x ∈ script.take i ∨ x = y := by
  rw [List.take_succ, ← List.get?_eq_getElem?, h] at hx
  simpa using hx

/-- Without overshoot the bytes reported never exceed `count`. -/
theorem produced_le_count (count : Nat) (script : List (Int × Nat)) (n : Nat)
    (hc : count < SIZE_MODULUS) (hn : n ≤ script.length)
    (hno : ∀ i status olen, script.get? i = some (status, olen) → i < n →
      olen ≤ count - collectedFrom 0 script i) :
    ∀ i, i ≤ n → produced script i ≤ count := by
  intro i
  induction i with
  | zero => intro _; simp [produced]
  | succ j ih =>
    intro hj
    have hjl : j < script.length := by omega
    have hle := ih (by omega)
    obtain ⟨⟨status, olen⟩, hg⟩ : ∃ y, script.get? j = some y :=
      ⟨script.get ⟨j, hjl⟩, List.get?_eq_get hjl⟩
    have hb := hno j status olen hg (by omega)
    have hcol : collectedFrom 0 script j = produced script j := by
      simp only [collectedFrom, produced, Nat.zero_add]
      exact Nat.mod_eq_of_lt (lt_of_le_of_lt hle hc)
    rw [produced_succ script j status olen hg]
    rw [hcol] at hb
    omega

/-- C10: for `count <= 65535` and every finite script of poll results,
`GetEntropy_EFR32` does not die; with `count = 0` it returns 0 without
polling; it returns whenever some scripted poll fails, and it is left polling
only if every scripted poll succeeded and the bytes collected are still short
of `count`. When it returns `r` after `n` polls: poll `i` asked for
`count - collected i` bytes at offset `collected i`; all polls before the last
succeeded; if `r` is not 0 it is the status of the last poll made (the first
failing one, no poll follows it); if `r = 0` all `n` polls succeeded and the
bytes they reported add up to at least `count`, and to exactly `count` when
no poll reports more than it was asked for. -/
theorem C10_entropy_poll_loop (count : Nat) (script : List (Int × Nat))
    (hc : count ≤ UINT16_MAX) :
    GetEntropy_EFR32 count script ≠ .died
    ∧ (count = 0 → GetEntropy_EFR32 count script = .returned 0 [])
    ∧ ((∃ x ∈ script, x.1 ≠ 0) → ∃ r polls, GetEntropy_EFR32 count script = .returned r polls)
    ∧ (∀ polls, GetEntropy_EFR32 count script = .polling polls →
        (∀ x ∈ script, x.1 = 0) ∧ polls.length = script.length
          ∧ collectedFrom 0 script script.length < count)
    ∧ (∀ r polls, GetEntropy_EFR32 count script = .returned r polls →
        polls.length ≤ script.length
        ∧ polls = (List.range polls.length).map
            (fun i => (collectedFrom 0 script i, count - collectedFrom 0 script i))
        ∧ (∀ x ∈ script.take (polls.length - 1), x.1 = 0)
        ∧ (r ≠ 0 → 0 < polls.length
            ∧ ∃ olen, script.get? (polls.length - 1) = some (r, olen))
        ∧ (r = 0 → (∀ x ∈ script.take polls.length, x.1 = 0)
            ∧ count ≤ produced script polls.length
            ∧ ((∀ i status olen, script.get? i = some (status, olen) → i < polls.length →
                  olen ≤ count - collectedFrom 0 script i) →
                produced script polls.length = count))) := by
  have hM : count < SIZE_MODULUS := lt_of_le_of_lt hc (by decide)
  have h0 : (0 : Nat) < SIZE_MODULUS := by decide
  have hdef : GetEntropy_EFR32 count script = GetEntropy_loop count 0 0 [] script := by
    simp [GetEntropy_EFR32, hc]
  have hpoll : ∀ polls, GetEntropy_EFR32 count script = .polling polls →
      (∀ x ∈ script, x.1 = 0) ∧ polls.length = script.length
        ∧ collectedFrom 0 script script.length < count := by
    intro polls h
    rw [hdef] at h
    have := GetEntropy_loop_polling count script 0 0 [] polls h0 h
    simpa using this
  refine ⟨?_, ?_, ?_, hpoll, ?_⟩
  · rw [hdef]; exact GetEntropy_loop_not_died count script 0 0 []
  · intro hz
    subst hz
    rw [hdef]
    cases script with
    | nil => simp [GetEntropy_loop]
    | cons x rest => obtain ⟨a, b⟩ := x; simp [GetEntropy_loop]
  · intro ⟨x, hx, hne⟩
    cases hres : GetEntropy_EFR32 count script with
    | died => rw [hdef] at hres; exact absurd hres (GetEntropy_loop_not_died count script 0 0 [])
    | returned r polls => exact ⟨r, polls, rfl⟩
    | polling polls => exact absurd ((hpoll polls hres).1 x hx) hne
  · intro r polls h
    rw [hdef] at h
    obtain ⟨n, hn, hp, _, hd⟩ := GetEntropy_loop_returned count script 0 0 [] r polls h0 h
    have hlen : polls.length = n := by rw [hp]; simp
    rw [hlen]
    refine ⟨hn, by simpa using hp, ?_, ?_, ?_⟩
    · rcases hd with ⟨_, _, hn0⟩ | ⟨_, hall, _, _⟩
      · subst hn0; simp
      · exact hall
    · intro hr
      rcases hd with ⟨hr0, _, _⟩ | ⟨hpos, _, hlast, _⟩
      · exact absurd hr0 hr
      · exact ⟨hpos, hlast⟩
    · intro hr
      rcases hd with ⟨_, hge, hn0⟩ | ⟨hpos, hall, ⟨olen, hlast⟩, hcnt⟩
      · subst hn0
        have hcz : count = 0 := by omega
        refine ⟨by simp, by simp [produced, hcz], fun _ => by simp [produced, hcz]⟩
      · have hge : count ≤ produced script n := by
          have := hcnt hr
          simp only [collectedFrom, Nat.zero_add] at this
          exact this.trans (Nat.mod_le _ _)
        refine ⟨?_, hge, ?_⟩
        · intro x hx
          have hn1 : n = (n - 1) + 1 := by omega
          rw [hn1] at hx
          rcases mem_take_succ script (n - 1) (r, olen) x hlast hx with h1 | h1
          · exact hall x h1
          · rw [h1]; exact hr
        · intro hno
          exact le_antisymm (produced_le_count count script n hM hn hno n (le_refl _)) hge

/-- C10, exercised: 64 bytes asked, the hardware delivers 32, 16 and 16. -/
theorem C10_entropy_poll_loop_witness :
    GetEntropy_EFR32 64 [(0, 32), (0, 16), (0, 16), (5, 3)]
        = .returned 0 [(0, 64), (32, 32), (48, 16)]
    ∧ produced [(0, 32), (0, 16), (0, 16), (5, 3)] 3 = 64
    ∧ GetEntropy_EFR32 64 [(0, 32), (7, 0), (0, 32)] = .returned 7 [(0, 64), (32, 32)] := by
  have h := C10_entropy_poll_loop 64 [(0, 32), (0, 16), (0, 16), (5, 3)] (by decide)
  have h1 : GetEntropy_EFR32 64 [(0, 32), (0, 16), (0, 16), (5, 3)]
      = .returned 0 [(0, 64), (32, 32), (48, 16)] := by decide
  have h2 := (h.2.2.2.2 0 _ h1).2.2.2.2 rfl
  refine ⟨h1, h2.2.2 ?_, by decide⟩
  intro i status olen hg hi
  simp only [List.length_cons, List.length_nil] at hi
  interval_cases i <;> simp only [List.get?_cons_succ, List.get?_cons_zero, Option.some.injEq,
    Prod.mk.injEq] at hg <;> obtain ⟨_, rfl⟩ := hg <;> decide

/-! ## Claim C11 -/

theorem poke_none (buf bytes : List Char) (off : Nat) (h : buf.length < off + bytes.length) :
    poke buf off bytes = none := by
  unfold poke
  rw [if_neg (by omega)]

/-- `Log_compose` is the stores up to `vsnprintf` followed by the rest. -/
theorem Log_compose_split (cfg : Config) (module category : Nat) (m : List Char)
    (junk : Nat → Char) :
    Log_compose cfg module category m junk
      = (Log_compose_head cfg module category junk).bind (Log_compose_tail cfg category m) := by
  simp only [Log_compose, Log_compose_head, Log_compose_tail, bind, pure, Option.bind_assoc]
  rfl

/-- Where the stores of `Log` before `vsnprintf` go. With a severity tag `P`
and a module tag `name` free of NUL they are all inside the array exactly when
`P.length + 1 + name.length + 2 <= N`, and `formattedMsgLen` is then that sum. -/
theorem Log_compose_head_spec (cfg : Config) (module category : Nat) (junk : Nat → Char)
    (hname : NUL ∉ moduleTag cfg module) :
    (9 + 1 + (moduleTag cfg module).length + 2 ≤ cfg.LOG_ITEM_SZ →
      ∃ buf, Log_compose_head cfg module category junk
          = some (buf, 9 + 1 + (moduleTag cfg module).length + 2)
        ∧ buf.length = cfg.LOG_ITEM_SZ)
    ∧ (cfg.LOG_ITEM_SZ < 9 + 1 + (moduleTag cfg module).length + 2 →
      Log_compose_head cfg module category junk = none) := by
  have hP := Log_switch_NUL cfg category
  have hPl := Log_switch_length cfg category
  generalize hPd : (Log_switch cfg category).1 = P at hP hPl
  generalize hnd : moduleTag cfg module = name at hname
  generalize hbd : stackArray cfg.LOG_ITEM_SZ junk = buf0
  have hb0 : buf0.length = cfg.LOG_ITEM_SZ := by rw [← hbd]; exact stackArray_length _ _
  -- the stores, each under the bound it needs
  have h1 : P.length + 1 ≤ cfg.LOG_ITEM_SZ →
      strcpy buf0 P = some (P ++ NUL :: buf0.drop (P.length + 1)) := by
    intro hle
    have := poke_append [] buf0 (P ++ [NUL])
      (by simp only [List.length_append, List.length_singleton]; omega)
    simpa [strcpy] using this
  have l1 : strlen (P ++ NUL :: buf0.drop (P.length + 1)) = P.length :=
    strlen_append_NUL _ _ hP
  have h2 : setByte (P ++ NUL :: buf0.drop (P.length + 1)) P.length '['
      = some (P ++ '[' :: buf0.drop (P.length + 1)) := by
    have := poke_append P (NUL :: buf0.drop (P.length + 1)) ['['] (by simp)
    simpa [setByte] using this
  have h3 : P.length + 1 + name.length + 1 ≤ cfg.LOG_ITEM_SZ →
      GetModuleName cfg (P ++ '[' :: buf0.drop (P.length + 1)) (P.length + 1) module
        = some ((P ++ '[' :: name) ++ NUL :: buf0.drop (P.length + 1 + name.length + 1)) := by
    intro hle
    rw [GetModuleName_eq, hnd]
    have := poke_append (P ++ ['[']) (buf0.drop (P.length + 1)) (name ++ [NUL])
      (by simp only [List.length_append, List.length_singleton, List.length_drop]; omega)
    simpa [Nat.add_assoc] using this
  have hP3 : NUL ∉ P ++ '[' :: name := by
    simp only [List.mem_append, List.mem_cons, not_or]
    exact ⟨hP, by decide, hname⟩
  have l3 : strlen ((P ++ '[' :: name) ++ NUL :: buf0.drop (P.length + 1 + name.length + 1))
      = P.length + 1 + name.length := by
    rw [strlen_append_NUL _ _ hP3]; simp; omega
  have h4 : setByte ((P ++ '[' :: name) ++ NUL :: buf0.drop (P.length + 1 + name.length + 1))
      (P.length + 1 + name.length) ']'
      = some ((P ++ '[' :: name) ++ ']' :: buf0.drop (P.length + 1 + name.length + 1)) := by
    have := poke_append (P ++ '[' :: name) (NUL :: buf0.drop (P.length + 1 + name.length + 1))
      [']'] (by simp)
    have hl : (P ++ '[' :: name).length = P.length + 1 + name.length := by simp; omega
    rw [hl] at this
    simpa [setByte] using this
  have hl4 : ((P ++ '[' :: name) ++ ']' :: buf0.drop (P.length + 1 + name.length + 1)).length
      = max cfg.LOG_ITEM_SZ (P.length + 1 + name.length + 1) := by
    simp only [List.length_append, List.length_cons, List.length_drop, hb0]; omega
  have h5 : P.length + 1 + name.length + 2 ≤ cfg.LOG_ITEM_SZ →
      setByte ((P ++ '[' :: name) ++ ']' :: buf0.drop (P.length + 1 + name.length + 1))
        (P.length + 1 + name.length + 1) ' '
      = some ((P ++ ['['] ++ name ++ [']', ' '])
          ++ buf0.drop (P.length + 1 + name.length + 2)) := by
    intro hle
    have := poke_append (P ++ '[' :: name ++ [']']) (buf0.drop (P.length + 1 + name.length + 1))
      [' '] (by simp only [List.length_singleton, List.length_drop]; omega)
    have hl : (P ++ '[' :: name ++ [']']).length = P.length + 1 + name.length + 1 := by
      simp; omega
    rw [hl] at this
    simpa [setByte, Nat.add_assoc] using this
  rw [← hPl]
  constructor
  · intro hle
    refine ⟨(P ++ ['['] ++ name ++ [']', ' ']) ++ buf0.drop (P.length + 1 + name.length + 2),
      ?_, ?_⟩
    · unfold Log_compose_head
      simp only [bind, pure, hPd, hbd]
      rw [h1 (by omega), Option.some_bind, l1, h2, Option.some_bind, h3 (by omega),
        Option.some_bind, l3, h4, Option.some_bind, h5 hle, Option.some_bind]
    · simp only [List.length_append, List.length_cons, List.length_nil, List.length_drop, hb0]
      omega
  · intro hlt
    unfold Log_compose_head
    simp only [bind, pure, hPd, hbd]
    by_cases c1 : P.length + 1 ≤ cfg.LOG_ITEM_SZ
    · rw [h1 c1, Option.some_bind, l1, h2, Option.some_bind]
      by_cases c3 : P.length + 1 + name.length + 1 ≤ cfg.LOG_ITEM_SZ
      · rw [h3 c3, Option.some_bind, l3, h4, Option.some_bind]
        have : setByte ((P ++ '[' :: name) ++ ']' :: buf0.drop (P.length + 1 + name.length + 1))
            (P.length + 1 + name.length + 1) ' ' = none := by
          unfold setByte
          exact poke_none _ _ _ (by rw [hl4]; simp only [List.length_singleton]; omega)
        rw [this, Option.none_bind]
      · have : GetModuleName cfg (P ++ '[' :: buf0.drop (P.length + 1)) (P.length + 1) module
            = none := by
          rw [GetModuleName_eq, hnd]
          refine poke_none _ _ _ ?_
          simp only [List.length_append, List.length_cons, List.length_nil, List.length_drop, hb0]
          omega
        rw [this, Option.none_bind]
    · have : strcpy buf0 P = none := by
        unfold strcpy
        refine poke_none _ _ _ ?_
        simp only [List.length_append, List.length_cons, List.length_nil, hb0]
        omega
      rw [this, Option.none_bind]

/-- With the severity tag counted in, the bound does what the compile-time
check is there for: if the item size exceeds
`9 + nlWeaveLoggingModuleNameLen + 3` and the module tag has at most
`nlWeaveLoggingModuleNameLen` characters, every store before `vsnprintf` is
inside the array and `vsnprintf` is given at least one byte. -/
theorem Log_stores_fit_when_tag_counted (cfg : Config) (module category : Nat)
    (junk : Nat → Char) (hname : NUL ∉ moduleTag cfg module)
    (hlen : (moduleTag cfg module).length ≤ cfg.nlWeaveLoggingModuleNameLen)
    (hN : cfg.LOG_ITEM_SZ > 9 + Log_maxPrefixLen cfg) :
    ∃ buf len, Log_compose_head cfg module category junk = some (buf, len)
      ∧ buf.length = cfg.LOG_ITEM_SZ ∧ 1 ≤ cfg.LOG_ITEM_SZ - len := by
  have hN1 : cfg.LOG_ITEM_SZ > 9 + (cfg.nlWeaveLoggingModuleNameLen + 3) := hN
  obtain ⟨buf, hb, hl⟩ :=
    (Log_compose_head_spec cfg module category junk hname).1 (by omega)
  exact ⟨buf, _, hb, hl, by omega⟩

/-- C11 does not hold of the code. The compile-time check of `Log` compares
the item size with `nlWeaveLoggingModuleNameLen + 3` and leaves the 9-byte
severity tag out. For a module-name length of 3 it accepts an item size of 7,
and there, for the Error category and the two-character tag "DL", the first
store already leaves the array: `strcpy` of "<error > " and its terminator
needs 10 bytes, so the stores before `vsnprintf` do not stay below index 7
and the call of `Log` is undefined. It also accepts an item size of 14, where
those stores do fit but `formattedMsgLen` is 14, so the space passed to
`vsnprintf` is 0 and not at least 1. -/
theorem C11_static_assert_admits_overflow :
    Log_static_assert exTiny = true
    ∧ (moduleTag exTiny 33).length ≤ exTiny.nlWeaveLoggingModuleNameLen
    ∧ exTiny.LOG_ITEM_SZ < ((Log_switch exTiny 1).1 ++ [NUL]).length
    ∧ strcpy (stackArray exTiny.LOG_ITEM_SZ exJunk) (Log_switch exTiny 1).1 = none
    ∧ Log_compose_head exTiny 33 1 exJunk = none
    ∧ Log exTiny (LogState.boot exTiny) .taskSCHEDULER_RUNNING 33 1 "x".toList exJunk
        = .undefined
    ∧ Log_static_assert exExact = true
    ∧ (moduleTag exExact 33).length ≤ exExact.nlWeaveLoggingModuleNameLen
    ∧ (Log_compose_head exExact 33 1 exJunk).map Prod.snd = some 14
    ∧ exExact.LOG_ITEM_SZ - 14 = 0 := by
  decide

end EFR32
